import Mathlib

/-!
# Verification of the voltcode API-proxy translation pipeline

A shallow embedding of the protocol-translating reverse proxy in
`src-tauri/src/api_proxy/` (files `convert.rs`, `client.rs`, `server.rs`,
`types.rs`): model routing, Gemini schema scrubbing, Anthropic ↔ OpenAI
request/response translation, token-count estimation, and the OpenAI → Anthropic
streaming state machine.

Modelling conventions:
* Rust `String` is Lean `String`; `str::len()` (UTF-8 byte length) is
  `String.utf8ByteSize`.
* `serde_json::Value` is the inductive `Json` below; numbers are modelled as
  `Int` (no claim touches a float literal), object fields keep insertion order.
* Floating-point passthrough request fields (`temperature`, `top_p`) are not
  representable in the embedding and are omitted; no function under
  verification reads them other than to copy them verbatim.
* `uuid::Uuid::new_v4` is modelled by an explicit generator parameter
  (`gen : Nat → String`) together with a counter, so every definition stays
  deterministic and executable.
* Rust `char::is_whitespace` is modelled by `Char.isWhitespace` (the ASCII
  whitespace subset, which covers every string manipulated here), and
  `str::to_lowercase` by per-`Char` ASCII lowering.
-/

/-- JSON values, standing for `serde_json::Value`. Objects are ordered
association lists (serde's map with insertion order); numbers are integers. -/
inductive Json where
  | null : Json
  | bool (b : Bool) : Json
  | num (n : Int) : Json
  | str (s : String) : Json
  | arr (items : List Json) : Json
  | obj (fields : List (String × Json)) : Json
  deriving Repr

mutual
/-- Decidable equality on JSON values (the derive handler does not support
this nested inductive, so the instance is spelled out). -/
def Json.decEq : (a b : Json) → Decidable (a = b)
  | .null, .null => isTrue rfl
  | .null, .bool _ => isFalse (fun h => Json.noConfusion h)
  | .null, .num _ => isFalse (fun h => Json.noConfusion h)
  | .null, .str _ => isFalse (fun h => Json.noConfusion h)
  | .null, .arr _ => isFalse (fun h => Json.noConfusion h)
  | .null, .obj _ => isFalse (fun h => Json.noConfusion h)
  | .bool _, .null => isFalse (fun h => Json.noConfusion h)
  | .bool a, .bool b =>
    if h : a = b then isTrue (by rw [h]) else isFalse (fun hh => h (by cases hh; rfl))
  | .bool _, .num _ => isFalse (fun h => Json.noConfusion h)
  | .bool _, .str _ => isFalse (fun h => Json.noConfusion h)
  | .bool _, .arr _ => isFalse (fun h => Json.noConfusion h)
  | .bool _, .obj _ => isFalse (fun h => Json.noConfusion h)
  | .num _, .null => isFalse (fun h => Json.noConfusion h)
  | .num _, .bool _ => isFalse (fun h => Json.noConfusion h)
  | .num a, .num b =>
    if h : a = b then isTrue (by rw [h]) else isFalse (fun hh => h (by cases hh; rfl))
  | .num _, .str _ => isFalse (fun h => Json.noConfusion h)
  | .num _, .arr _ => isFalse (fun h => Json.noConfusion h)
  | .num _, .obj _ => isFalse (fun h => Json.noConfusion h)
  | .str _, .null => isFalse (fun h => Json.noConfusion h)
  | .str _, .bool _ => isFalse (fun h => Json.noConfusion h)
  | .str _, .num _ => isFalse (fun h => Json.noConfusion h)
  | .str a, .str b =>
    if h : a = b then isTrue (by rw [h]) else isFalse (fun hh => h (by cases hh; rfl))
  | .str _, .arr _ => isFalse (fun h => Json.noConfusion h)
  | .str _, .obj _ => isFalse (fun h => Json.noConfusion h)
  | .arr _, .null => isFalse (fun h => Json.noConfusion h)
  | .arr _, .bool _ => isFalse (fun h => Json.noConfusion h)
  | .arr _, .num _ => isFalse (fun h => Json.noConfusion h)
  | .arr _, .str _ => isFalse (fun h => Json.noConfusion h)
  | .arr a, .arr b =>
    match Json.decEqList a b with
    | isTrue h => isTrue (by rw [h])
    | isFalse h => isFalse (fun hh => h (by cases hh; rfl))
  | .arr _, .obj _ => isFalse (fun h => Json.noConfusion h)
  | .obj _, .null => isFalse (fun h => Json.noConfusion h)
  | .obj _, .bool _ => isFalse (fun h => Json.noConfusion h)
  | .obj _, .num _ => isFalse (fun h => Json.noConfusion h)
  | .obj _, .str _ => isFalse (fun h => Json.noConfusion h)
  | .obj _, .arr _ => isFalse (fun h => Json.noConfusion h)
  | .obj a, .obj b =>
    match Json.decEqFields a b with
    | isTrue h => isTrue (by rw [h])
    | isFalse h => isFalse (fun hh => h (by cases hh; rfl))

/-- Decidable equality for JSON arrays. -/
def Json.decEqList : (a b : List Json) → Decidable (a = b)
  | [], [] => isTrue rfl
  | [], _ :: _ => isFalse (fun h => List.noConfusion h)
  | _ :: _, [] => isFalse (fun h => List.noConfusion h)
  | x :: xs, y :: ys =>
    match Json.decEq x y, Json.decEqList xs ys with
    | isTrue h1, isTrue h2 => isTrue (by rw [h1, h2])
    | isFalse h1, _ => isFalse (fun hh => h1 (by cases hh; rfl))
    | _, isFalse h2 => isFalse (fun hh => h2 (by cases hh; rfl))

/-- Decidable equality for JSON object field lists. -/
def Json.decEqFields : (a b : List (String × Json)) → Decidable (a = b)
  | [], [] => isTrue rfl
  | [], _ :: _ => isFalse (fun h => List.noConfusion h)
  | _ :: _, [] => isFalse (fun h => List.noConfusion h)
  | (k, v) :: xs, (k', v') :: ys =>
    if hk : k = k' then
      match Json.decEq v v', Json.decEqFields xs ys with
      | isTrue h1, isTrue h2 => isTrue (by rw [hk, h1, h2])
      | isFalse h1, _ => isFalse (fun hh => h1 (by cases hh; rfl))
      | _, isFalse h2 => isFalse (fun hh => h2 (by cases hh; rfl))
    else isFalse (fun hh => hk (by cases hh; rfl))
end

instance : DecidableEq Json := Json.decEq

/-- First value bound to key `k` in a JSON object field list (`Map::get`). -/
def jsonGet (fields : List (String × Json)) (k : String) : Option Json :=
  match fields with
  | [] => none
  | (k', v) :: rest => if k' = k then some v else jsonGet rest k

/-- `Value::as_str`. -/
def jsonAsStr : Json → Option String
  | .str s => some s
  | _ => none

/-- JSON string escaping as performed by `serde_json` when serializing:
`"` and `\` are escaped, control characters use the two-character escapes
`\b \t \n \f \r` where available and `\u00XX` otherwise. -/
def jsonEscapeChar (c : Char) : String :=
  if c = '"' then "\\\""
  else if c = '\\' then "\\\\"
  else if c = '\x08' then "\\b"
  else if c = '\t' then "\\t"
  else if c = '\n' then "\\n"
  else if c = '\x0c' then "\\f"
  else if c = '\r' then "\\r"
  else if c.toNat < 0x20 then
    "\\u00" ++ String.mk [Nat.digitChar (c.toNat / 16), Nat.digitChar (c.toNat % 16)]
  else String.singleton c

/-- Serialize a string literal with surrounding quotes (serde_json). -/
def jsonEscapeString (s : String) : String :=
  "\"" ++ String.join (s.toList.map jsonEscapeChar) ++ "\""

/-- Interleave a separator between serialized pieces. -/
def joinSep (sep : String) : List String → String
  | [] => ""
  | [x] => x
  | x :: rest => x ++ sep ++ joinSep sep rest

mutual
/-- Compact serialization of a JSON value, standing for
`serde_json::to_string` on a `Value`. -/
def serializeJson : Json → String
  | .null => "null"
  | .bool b => if b then "true" else "false"
  | .num n => toString n
  | .str s => jsonEscapeString s
  | .arr items => "[" ++ joinSep "," (serializeJsonList items) ++ "]"
  | .obj fields => "\x7b" ++ joinSep "," (serializeJsonFields fields) ++ "\x7d"

/-- Serialize each element of a JSON array. -/
def serializeJsonList : List Json → List String
  | [] => []
  | j :: rest => serializeJson j :: serializeJsonList rest

/-- Serialize each `key:value` pair of a JSON object. -/
def serializeJsonFields : List (String × Json) → List String
  | [] => []
  | (k, v) :: rest => (jsonEscapeString k ++ ":" ++ serializeJson v) :: serializeJsonFields rest
end

/-! ## Rust string helpers -/

/-- `pat` is a leading run of `s` (char-list form of `str::starts_with`). -/
def charsHasPre : List Char → List Char → Bool
  | [], _ => true
  | _ :: _, [] => false
  | p :: ps, c :: cs => p == c && charsHasPre ps cs

/-- `pat` occurs contiguously inside `s` (char-list form of `str::contains`). -/
def charsHasSub (pat : List Char) : List Char → Bool
  | [] => pat.isEmpty
  | c :: rest => charsHasPre pat (c :: rest) || charsHasSub pat rest

/-- Rust `str::contains(pat)`. -/
def rustContains (s pat : String) : Bool :=
  charsHasSub pat.toList s.toList

/-- Rust `str::strip_prefix(tag)`: strip a leading `tag`, or `none`. -/
def rustStripTag (s tag : String) : Option String :=
  if charsHasPre tag.toList s.toList then
    some (String.mk (s.toList.drop tag.toList.length))
  else none

/-- Rust `str::to_lowercase` (ASCII fragment, via `Char.toLower`). -/
def rustToLower (s : String) : String :=
  String.mk (s.toList.map Char.toLower)

/-- Rust `str::trim`: drop leading and trailing whitespace. -/
def rustTrim (s : String) : String :=
  String.mk (((s.toList.dropWhile Char.isWhitespace).reverse.dropWhile Char.isWhitespace).reverse)

/-! ## Configuration and model routing (`convert.rs`, `types.rs`) -/

/-- `Provider` (types.rs). -/
inductive Provider where
  | openai
  | google
  | anthropic
  deriving Repr, DecidableEq

/-- `ProxyConfig` (types.rs); API keys and base URL are irrelevant to routing
claims but kept for shape fidelity. -/
structure ProxyConfig where
  preferredProvider : Provider
  bigModel : String
  smallModel : String
  openaiApiKey : Option String := none
  geminiApiKey : Option String := none
  anthropicApiKey : Option String := none
  openaiBaseUrl : Option String := none
  deriving Repr

/-- `ProxyConfig::default()` (types.rs). -/
def defaultProxyConfig : ProxyConfig :=
  { preferredProvider := .openai
    bigModel := "gpt-4.1"
    smallModel := "gpt-4.1-mini" }

/-- `OPENAI_MODELS` (convert.rs). -/
def OPENAI_MODELS : List String :=
  ["o3-mini", "o1", "o1-mini", "o1-pro", "gpt-4.5-preview", "gpt-4o",
   "gpt-4o-audio-preview", "chatgpt-4o-latest", "gpt-4o-mini",
   "gpt-4o-mini-audio-preview", "gpt-4.1", "gpt-4.1-mini"]

/-- `GEMINI_MODELS` (convert.rs). -/
def GEMINI_MODELS : List String :=
  ["gemini-2.5-flash", "gemini-2.5-pro"]

/-- `MappedModel` (convert.rs). -/
structure MappedModel where
  provider : String
  model : String
  fullName : String
  deriving Repr, DecidableEq

/-- The prefix-stripping step at the top of `map_model`:
`model.strip_prefix("anthropic/").or_else(openai/).or_else(gemini/).unwrap_or(model)`. -/
def cleanModelName (model : String) : String :=
  (((rustStripTag model "anthropic/").orElse
      (fun _ => rustStripTag model "openai/")).orElse
      (fun _ => rustStripTag model "gemini/")).getD model

/-- `map_model` (convert.rs): route a requested model name to a provider and
concrete upstream model. -/
def map_model (model : String) (config : ProxyConfig) : MappedModel :=
  let cleanModel := cleanModelName model
  let lowerModel := rustToLower cleanModel
  if config.preferredProvider = .anthropic then
    { provider := "anthropic", model := cleanModel
      fullName := "anthropic/" ++ cleanModel }
  else if rustContains lowerModel "haiku" then
    let pm :=
      match config.preferredProvider with
      | .google =>
        if GEMINI_MODELS.contains config.smallModel then ("gemini", config.smallModel)
        else ("openai", config.smallModel)
      | _ => ("openai", config.smallModel)
    { provider := pm.1, model := pm.2, fullName := pm.1 ++ "/" ++ pm.2 }
  else if rustContains lowerModel "sonnet" then
    let pm :=
      match config.preferredProvider with
      | .google =>
        if GEMINI_MODELS.contains config.bigModel then ("gemini", config.bigModel)
        else ("openai", config.bigModel)
      | _ => ("openai", config.bigModel)
    { provider := pm.1, model := pm.2, fullName := pm.1 ++ "/" ++ pm.2 }
  else if rustContains lowerModel "opus" then
    let pm :=
      match config.preferredProvider with
      | .google =>
        if GEMINI_MODELS.contains config.bigModel then ("gemini", config.bigModel)
        else ("openai", config.bigModel)
      | _ => ("openai", config.bigModel)
    { provider := pm.1, model := pm.2, fullName := pm.1 ++ "/" ++ pm.2 }
  else if GEMINI_MODELS.contains cleanModel then
    { provider := "gemini", model := cleanModel
      fullName := "gemini/" ++ cleanModel }
  else if OPENAI_MODELS.contains cleanModel then
    { provider := "openai", model := cleanModel
      fullName := "openai/" ++ cleanModel }
  else
    let provider :=
      match config.preferredProvider with
      | .openai => "openai"
      | .google => "gemini"
      | .anthropic => "anthropic"
    { provider := provider, model := cleanModel
      fullName := provider ++ "/" ++ cleanModel }

/-- C8: every known OpenAI / Gemini model name, mapped under the default
configuration, passes through unchanged: the upstream model equals the
input after prefix stripping, which for these names is the input itself. -/
theorem map_model_known_roundtrip (m : String)
    (hm : m ∈ OPENAI_MODELS ++ GEMINI_MODELS) :
    (map_model m defaultProxyConfig).model = cleanModelName m ∧
      cleanModelName m = m := by
  fin_cases hm <;> exact ⟨by decide, by decide⟩

/-- Witness for C8 at the concrete model name `gpt-4.1`. -/
theorem map_model_known_roundtrip_witness :
    (map_model "gpt-4.1" defaultProxyConfig).model = cleanModelName "gpt-4.1" ∧
      cleanModelName "gpt-4.1" = "gpt-4.1" :=
  map_model_known_roundtrip "gpt-4.1" (by decide)

/-! ## Gemini schema scrubber (`clean_gemini_schema`, convert.rs) -/

/-- The two `obj.remove(...)` calls at the top of `clean_gemini_schema`:
drop the `additionalProperties` and `default` keys. -/
def scrubStep1 (fields : List (String × Json)) : List (String × Json) :=
  fields.filter fun p => p.1 != "additionalProperties" && p.1 != "default"

/-- The key-level scrubbing `clean_gemini_schema` performs on one JSON object
before recursing: remove `additionalProperties` and `default`, and remove a
disallowed `format` when `type == "string"` (allow-list `enum`, `date-time`). -/
def scrubKeys (fields : List (String × Json)) : List (String × Json) :=
  if (jsonGet (scrubStep1 fields) "type").bind jsonAsStr = some "string" then
    match (jsonGet (scrubStep1 fields) "format").bind jsonAsStr with
    | some fmt =>
      if ¬(fmt = "enum" ∨ fmt = "date-time") then
        (scrubStep1 fields).filter fun p => p.1 != "format"
      else scrubStep1 fields
    | none => scrubStep1 fields
  else scrubStep1 fields

/-- Filtering never increases the `sizeOf` of a list. -/
theorem sizeOf_filter_le [SizeOf α] (p : α → Bool) (l : List α) :
    sizeOf (l.filter p) ≤ sizeOf l := by
  induction l with
  | nil => simp
  | cons x rest ih =>
    by_cases hx : p x
    · simp [List.filter_cons, hx]; omega
    · simp only [List.filter_cons, hx, Bool.false_eq_true, if_false, List.cons.sizeOf_spec]
      omega

/-- `scrubKeys` never increases the `sizeOf` of the field list. -/
theorem scrubKeys_sizeOf_le (fields : List (String × Json)) :
    sizeOf (scrubKeys fields) ≤ sizeOf fields := by
  have h1 : sizeOf (scrubStep1 fields) ≤ sizeOf fields := sizeOf_filter_le _ _
  simp only [scrubKeys]
  split
  · split
    · split
      · exact le_trans (sizeOf_filter_le _ _) h1
      · exact h1
    · exact h1
  · exact h1

mutual
/-- `clean_gemini_schema` (convert.rs): recursively remove
`additionalProperties`, `default` and disallowed string `format`s from a
JSON schema. -/
def clean_gemini_schema : Json → Json
  | .obj fields => .obj (cleanValues (scrubKeys fields))
  | .arr items => .arr (cleanEach items)
  | j => j
termination_by j => sizeOf j
decreasing_by
  all_goals simp_wf
  all_goals (have h := scrubKeys_sizeOf_le fields; omega)

/-- Recursive cleaning of every element of a JSON array. -/
def cleanEach : List Json → List Json
  | [] => []
  | j :: rest => clean_gemini_schema j :: cleanEach rest
termination_by l => sizeOf l
decreasing_by
  all_goals simp_wf
  all_goals omega

/-- Recursive cleaning of every value of a JSON object. -/
def cleanValues : List (String × Json) → List (String × Json)
  | [] => []
  | (k, v) :: rest => (k, clean_gemini_schema v) :: cleanValues rest
termination_by l => sizeOf l
decreasing_by
  all_goals simp_wf
  all_goals omega
end

/-- Strong induction over JSON values, with member-wise hypotheses for
arrays and objects. -/
theorem Json.strongInd (P : Json → Prop)
    (hnull : P .null) (hbool : ∀ b, P (.bool b)) (hnum : ∀ n, P (.num n))
    (hstr : ∀ s, P (.str s))
    (harr : ∀ items, (∀ j ∈ items, P j) → P (.arr items))
    (hobj : ∀ fields, (∀ p ∈ fields, P p.2) → P (.obj fields)) :
    ∀ j, P j
  | .null => hnull
  | .bool b => hbool b
  | .num n => hnum n
  | .str s => hstr s
  | .arr items =>
    harr items (fun j _hj =>
      Json.strongInd P hnull hbool hnum hstr harr hobj j)
  | .obj fields =>
    hobj fields (fun p _hp =>
      Json.strongInd P hnull hbool hnum hstr harr hobj p.2)
termination_by j => sizeOf j
decreasing_by
  · have h := List.sizeOf_lt_of_mem _hj
    simp_wf
    omega
  · have h := List.sizeOf_lt_of_mem _hp
    rcases p with ⟨a, b⟩
    simp_wf
    simp only [Prod.mk.sizeOf_spec] at h
    omega

/-- `cleanValues` is value-wise mapping of the recursive scrub. -/
theorem cleanValues_eq_map (l : List (String × Json)) :
    cleanValues l = l.map fun p => (p.1, clean_gemini_schema p.2) := by
  induction l with
  | nil => simp [cleanValues]
  | cons p rest ih =>
    cases p
    simp [cleanValues, ih]

/-- `cleanEach` is element-wise mapping of the recursive scrub. -/
theorem cleanEach_eq_map (l : List Json) :
    cleanEach l = l.map clean_gemini_schema := by
  induction l with
  | nil => simp [cleanEach]
  | cons j rest ih => simp [cleanEach, ih]

/-- Scrubbing never turns a non-string into a string or changes a string:
`as_str` commutes with the scrub. -/
theorem jsonAsStr_clean (v : Json) :
    jsonAsStr (clean_gemini_schema v) = jsonAsStr v := by
  cases v <;> simp [clean_gemini_schema, jsonAsStr]

/-- Key lookup through a value-wise map. -/
theorem jsonGet_mapValues (g : Json → Json) (l : List (String × Json)) (k : String) :
    jsonGet (l.map fun p => (p.1, g p.2)) k = (jsonGet l k).map g := by
  induction l with
  | nil => rfl
  | cons p rest ih =>
    cases p with
    | mk k' v =>
      by_cases h : k' = k <;> simp [jsonGet, h, ih]

/-- Key-based filtering commutes with value-wise mapping. -/
theorem filter_key_mapValues (g : Json → Json) (q : String → Bool)
    (l : List (String × Json)) :
    (l.map fun p => (p.1, g p.2)).filter (fun p => q p.1) =
      (l.filter fun p => q p.1).map fun p => (p.1, g p.2) := by
  induction l with
  | nil => rfl
  | cons p rest ih =>
    cases p with
    | mk k v =>
      by_cases h : q k <;> simp [List.filter_cons, h, ih]

/-- Filtering on keys the lookup key satisfies does not change the lookup. -/
theorem jsonGet_filter_keep (q : String → Bool) (l : List (String × Json))
    (k : String) (hq : q k = true) :
    jsonGet (l.filter fun p => q p.1) k = jsonGet l k := by
  induction l with
  | nil => rfl
  | cons p rest ih =>
    cases p with
    | mk k' v =>
      by_cases h : k' = k
      · subst h
        simp [List.filter_cons, hq, jsonGet]
      · by_cases hk : q k' <;> simp [List.filter_cons, hk, jsonGet, h, ih]

/-- After filtering a key out, looking it up yields `none`. -/
theorem jsonGet_filter_none (l : List (String × Json)) (k : String) :
    jsonGet (l.filter fun p => p.1 != k) k = none := by
  induction l with
  | nil => rfl
  | cons p rest ih =>
    cases p with
    | mk k' v =>
      by_cases h : k' = k
      · subst h
        simp [List.filter_cons, ih]
      · simp [List.filter_cons, h, jsonGet, ih]

/-- Every field surviving `scrubKeys` was in the original field list. -/
theorem scrubKeys_subset {p : String × Json} {l : List (String × Json)}
    (hp : p ∈ scrubKeys l) : p ∈ l := by
  simp only [scrubKeys, scrubStep1] at hp
  split at hp
  · split at hp
    · split at hp
      · exact (List.mem_filter.mp (List.mem_filter.mp hp).1).1
      · exact (List.mem_filter.mp hp).1
    · exact (List.mem_filter.mp hp).1
  · exact (List.mem_filter.mp hp).1

/-- Every field surviving `scrubKeys` passes the first-stage key filter. -/
theorem scrubKeys_pred1 {p : String × Json} {l : List (String × Json)}
    (hp : p ∈ scrubKeys l) :
    (p.1 != "additionalProperties" && p.1 != "default") = true := by
  simp only [scrubKeys, scrubStep1] at hp
  split at hp
  · split at hp
    · split at hp
      · exact (List.mem_filter.mp (List.mem_filter.mp hp).1).2
      · exact (List.mem_filter.mp hp).2
    · exact (List.mem_filter.mp hp).2
  · exact (List.mem_filter.mp hp).2

/-- `scrubKeys` commutes with any value-wise map that preserves `as_str`
(the conditions it branches on only inspect keys and string values). -/
theorem scrubKeys_mapValues (g : Json → Json)
    (hg : ∀ v, jsonAsStr (g v) = jsonAsStr v) (l : List (String × Json)) :
    scrubKeys (l.map fun p => (p.1, g p.2)) =
      (scrubKeys l).map fun p => (p.1, g p.2) := by
  have hstep1 : scrubStep1 (l.map fun p => (p.1, g p.2)) =
      (scrubStep1 l).map fun p => (p.1, g p.2) := by
    simp only [scrubStep1]
    exact filter_key_mapValues g
      (fun k => k != "additionalProperties" && k != "default") l
  have hget : ∀ k, (jsonGet ((scrubStep1 l).map fun p => (p.1, g p.2)) k).bind jsonAsStr =
      (jsonGet (scrubStep1 l) k).bind jsonAsStr := by
    intro k
    rw [jsonGet_mapValues]
    cases jsonGet (scrubStep1 l) k <;> simp [hg]
  simp only [scrubKeys, hstep1, hget]
  split
  · split
    · split
      · exact filter_key_mapValues g (fun k => k != "format") _
      · rfl
    · rfl
  · rfl

/-- `scrubKeys` is idempotent on field lists. -/
theorem scrubKeys_idem (l : List (String × Json)) :
    scrubKeys (scrubKeys l) = scrubKeys l := by
  have h1 : scrubStep1 (scrubKeys l) = scrubKeys l :=
    List.filter_eq_self.mpr fun p hp => scrubKeys_pred1 hp
  have hty : jsonGet (scrubKeys l) "type" = jsonGet (scrubStep1 l) "type" := by
    simp only [scrubKeys]
    split
    · split
      · split
        · exact jsonGet_filter_keep (fun k => k != "format") _ "type" (by decide)
        · rfl
      · rfl
    · rfl
  by_cases hC : (jsonGet (scrubStep1 l) "type").bind jsonAsStr = some "string"
  · rcases hF : (jsonGet (scrubStep1 l) "format").bind jsonAsStr with _ | fmt
    · have hSK : scrubKeys l = scrubStep1 l := by
        simp only [scrubKeys, hC, if_true, hF]
      conv_lhs => rw [scrubKeys]
      rw [h1, hty, hC, if_pos rfl, hSK, hF]
    · by_cases hA : fmt = "enum" ∨ fmt = "date-time"
      · have hSK : scrubKeys l = scrubStep1 l := by
          simp only [scrubKeys, hC, if_true, hF]
          simp [hA]
        conv_lhs => rw [scrubKeys]
        rw [h1, hty, hC, if_pos rfl, hSK, hF]
        simp [hA]
      · have hSK : scrubKeys l = (scrubStep1 l).filter fun p => p.1 != "format" := by
          simp only [scrubKeys, hC, if_true, hF]
          simp [hA]
        have hfmt2 : (jsonGet (scrubKeys l) "format").bind jsonAsStr = none := by
          rw [hSK, jsonGet_filter_none]
          rfl
        conv_lhs => rw [scrubKeys]
        rw [h1, hty, hC, if_pos rfl, hfmt2]
  · have hSK : scrubKeys l = scrubStep1 l := by
      simp only [scrubKeys, hC, if_false]
    conv_lhs => rw [scrubKeys]
    rw [h1, hty]
    simp [hC]

/-- C9: the Gemini schema scrubber is idempotent — scrubbing an
already-scrubbed JSON value changes nothing. -/
theorem clean_gemini_schema_idem (s : Json) :
    clean_gemini_schema (clean_gemini_schema s) = clean_gemini_schema s := by
  induction s using Json.strongInd with
  | hnull => simp [clean_gemini_schema]
  | hbool b => simp [clean_gemini_schema]
  | hnum n => simp [clean_gemini_schema]
  | hstr s => simp [clean_gemini_schema]
  | harr items ih =>
    simp only [clean_gemini_schema, cleanEach_eq_map]
    congr 1
    rw [List.map_map]
    refine List.map_congr_left ?_
    intro j hj
    exact ih j hj
  | hobj fields ih =>
    simp only [clean_gemini_schema, cleanValues_eq_map]
    rw [scrubKeys_mapValues clean_gemini_schema jsonAsStr_clean, scrubKeys_idem]
    congr 1
    rw [List.map_map]
    refine List.map_congr_left ?_
    intro p hp
    have hmem : p ∈ fields := scrubKeys_subset hp
    simp only [Function.comp]
    rw [ih p hmem]

/-! ## Anthropic wire types (`types.rs`) -/

/-- `ImageSource` (types.rs). -/
structure ImageSource where
  sourceType : String
  mediaType : String
  data : String
  deriving Repr, DecidableEq

mutual
/-- `ContentBlock` (types.rs): tagged union of message content blocks. -/
inductive ContentBlock where
  | text (text : String)
  | image (source : ImageSource)
  | toolUse (id : String) (name : String) (input : Json)
  | toolResult (toolUseId : String) (content : ToolResultContent) (isError : Option Bool)

/-- `ToolResultContent` (types.rs): untagged string-or-blocks union. -/
inductive ToolResultContent where
  | text (s : String)
  | blocks (blocks : List ContentBlock)
end

/-- `SystemContentBlock` (types.rs). -/
structure SystemContentBlock where
  blockType : String
  text : String
  deriving Repr, DecidableEq

/-- `SystemContent` (types.rs): untagged string-or-blocks union. -/
inductive SystemContent where
  | text (s : String)
  | blocks (blocks : List SystemContentBlock)
  deriving DecidableEq

/-- `MessageContent` (types.rs): untagged string-or-blocks union. -/
inductive MessageContent where
  | text (s : String)
  | blocks (blocks : List ContentBlock)

/-- `Message` (types.rs). -/
structure Message where
  role : String
  content : MessageContent

/-- `Tool` (types.rs). -/
structure Tool where
  name : String
  description : Option String := none
  inputSchema : Json

/-- `ToolChoice` (types.rs). -/
structure ToolChoice where
  choiceType : String
  name : Option String := none
  deriving DecidableEq

/-- `MessagesRequest` (types.rs). The floating-point passthrough fields
`temperature` and `top_p` are omitted (see the module docstring). -/
structure MessagesRequest where
  model : String
  maxTokens : Nat
  messages : List Message
  system : Option SystemContent := none
  stopSequences : Option (List String) := none
  stream : Bool := false
  topK : Option Nat := none
  metadata : Option Json := none
  tools : Option (List Tool) := none
  toolChoice : Option ToolChoice := none

/-- `Usage` (types.rs). -/
structure Usage where
  inputTokens : Nat
  outputTokens : Nat
  cacheCreationInputTokens : Nat
  cacheReadInputTokens : Nat
  deriving Repr, DecidableEq

/-- `ResponseContentBlock` (types.rs). -/
inductive ResponseContentBlock where
  | text (text : String)
  | toolUse (id : String) (name : String) (input : Json)
  deriving DecidableEq

/-- `StopReason` (types.rs). -/
inductive StopReason where
  | endTurn
  | maxTokens
  | stopSequence
  | toolUse
  deriving Repr, DecidableEq

/-- `MessagesResponse` (types.rs). -/
structure MessagesResponse where
  id : String
  model : String
  role : String
  content : List ResponseContentBlock
  responseType : String
  stopReason : Option StopReason
  stopSequence : Option String
  usage : Usage
  deriving DecidableEq

/-- `TokenCountRequest` (types.rs). -/
structure TokenCountRequest where
  model : String
  messages : List Message
  system : Option SystemContent := none
  tools : Option (List Tool) := none
  toolChoice : Option ToolChoice := none

/-- `TokenCountResponse` (types.rs). -/
structure TokenCountResponse where
  inputTokens : Nat
  deriving Repr, DecidableEq

/-! ## OpenAI wire types (`types.rs`) -/

/-- `OpenAIImageUrl` (types.rs). -/
structure OpenAIImageUrl where
  url : String
  deriving Repr, DecidableEq

/-- `OpenAIContentPart` (types.rs). -/
inductive OpenAIContentPart where
  | text (text : String)
  | imageUrl (imageUrl : OpenAIImageUrl)
  deriving Repr, DecidableEq

/-- `OpenAIContent` (types.rs): untagged string-or-parts union. -/
inductive OpenAIContent where
  | text (s : String)
  | parts (parts : List OpenAIContentPart)
  deriving Repr, DecidableEq

/-- `OpenAIFunction` (types.rs). -/
structure OpenAIFunction where
  name : String
  arguments : String
  deriving Repr, DecidableEq

/-- `OpenAIToolCall` (types.rs). -/
structure OpenAIToolCall where
  id : String
  callType : String
  function : OpenAIFunction
  deriving Repr, DecidableEq

/-- `OpenAIMessage` (types.rs). -/
structure OpenAIMessage where
  role : String
  content : OpenAIContent
  name : Option String
  toolCalls : Option (List OpenAIToolCall)
  toolCallId : Option String
  deriving Repr, DecidableEq

/-- `OpenAIFunctionDef` (types.rs). -/
structure OpenAIFunctionDef where
  name : String
  description : Option String
  parameters : Json
  deriving DecidableEq

/-- `OpenAITool` (types.rs). -/
structure OpenAITool where
  toolType : String
  function : OpenAIFunctionDef
  deriving DecidableEq

/-- `OpenAIRequest` (types.rs), minus the omitted float fields. -/
structure OpenAIRequest where
  model : String
  messages : List OpenAIMessage
  maxCompletionTokens : Option Nat
  stop : Option (List String)
  stream : Bool
  tools : Option (List OpenAITool)
  toolChoice : Option Json
  deriving DecidableEq

/-- `OpenAIResponseMessage` (types.rs). -/
structure OpenAIResponseMessage where
  role : String
  content : Option String
  toolCalls : Option (List OpenAIToolCall)
  deriving DecidableEq

/-- `OpenAIChoice` (types.rs). -/
structure OpenAIChoice where
  index : Nat
  message : OpenAIResponseMessage
  finishReason : Option String
  deriving DecidableEq

/-- `OpenAIUsage` (types.rs). -/
structure OpenAIUsage where
  promptTokens : Nat
  completionTokens : Nat
  totalTokens : Nat
  deriving Repr, DecidableEq

/-- `OpenAIResponse` (types.rs). -/
structure OpenAIResponse where
  id : String
  object : String
  created : Nat
  model : String
  choices : List OpenAIChoice
  usage : OpenAIUsage
  deriving DecidableEq

/-! ## Request/response translation (`convert.rs`) -/

mutual
/-- serde's JSON encoding of a `ContentBlock` (internally tagged on `type`,
fields in declaration order, `is_error` skipped when `None`), as produced by
`serde_json::to_string` inside `parse_tool_result_content`. -/
def contentBlockJson : ContentBlock → Json
  | .text text => .obj [("type", .str "text"), ("text", .str text)]
  | .image source =>
    .obj [("type", .str "image"),
          ("source", .obj [("type", .str source.sourceType),
                           ("media_type", .str source.mediaType),
                           ("data", .str source.data)])]
  | .toolUse id name input =>
    .obj [("type", .str "tool_use"), ("id", .str id), ("name", .str name),
          ("input", input)]
  | .toolResult toolUseId content isError =>
    .obj ([("type", .str "tool_result"), ("tool_use_id", .str toolUseId),
           ("content", toolResultContentJson content)] ++
          (match isError with
           | some b => [("is_error", .bool b)]
           | none => []))
termination_by b => sizeOf b

/-- serde's JSON encoding of a `ToolResultContent` (untagged union). -/
def toolResultContentJson : ToolResultContent → Json
  | .text s => .str s
  | .blocks blocks => .arr (contentBlocksJson blocks)
termination_by c => sizeOf c

/-- serde's JSON encoding of a list of content blocks. -/
def contentBlocksJson : List ContentBlock → List Json
  | [] => []
  | b :: rest => contentBlockJson b :: contentBlocksJson rest
termination_by l => sizeOf l
end

/-- The accumulation loop of `parse_tool_result_content` over block-form
content: text blocks contribute `text + "\n"`, every other block its JSON
serialization followed by `"\n"`. -/
def toolResultBlocksText : List ContentBlock → String
  | [] => ""
  | .text text :: rest => text ++ "\n" ++ toolResultBlocksText rest
  | b :: rest => serializeJson (contentBlockJson b) ++ "\n" ++ toolResultBlocksText rest

/-- `parse_tool_result_content` (convert.rs): tool-result content as a string. -/
def parse_tool_result_content : ToolResultContent → String
  | .text text => text
  | .blocks blocks => rustTrim (toolResultBlocksText blocks)

/-- `extract_system_text` (convert.rs). -/
def extract_system_text : SystemContent → String
  | .text text => text
  | .blocks blocks => joinSep "\n\n" (blocks.map (·.text))

/-- The `matches!(b, ContentBlock::ToolResult { .. })` test in
`convert_anthropic_to_openai`. -/
def hasToolResultB : ContentBlock → Bool
  | .toolResult .. => true
  | _ => false

/-- The flattening loop of `convert_anthropic_to_openai` for a user message
containing tool results: text blocks contribute `text + "\n"`, tool results
the literal `"Tool result for <id>:\n<result>\n"`, all other blocks nothing. -/
def toolResultMessageText : List ContentBlock → String
  | [] => ""
  | .text text :: rest => text ++ "\n" ++ toolResultMessageText rest
  | .toolResult toolUseId content _ :: rest =>
    "Tool result for " ++ toolUseId ++ ":\n" ++ parse_tool_result_content content ++ "\n"
      ++ toolResultMessageText rest
  | _ :: rest => toolResultMessageText rest

/-- The `parts` vector built by the regular-message loop of
`convert_anthropic_to_openai` (tool_use blocks contribute to `tool_calls`
instead, see `blockToolCalls`; the source fills both vectors in one pass,
which is order-equivalent to these two passes). -/
def blockParts : List ContentBlock → List OpenAIContentPart
  | [] => []
  | .text text :: rest => .text text :: blockParts rest
  | .image source :: rest =>
    .imageUrl ⟨"data:" ++ source.mediaType ++ ";base64," ++ source.data⟩ :: blockParts rest
  | .toolUse .. :: rest => blockParts rest
  | .toolResult toolUseId content _ :: rest =>
    .text ("Tool result for " ++ toolUseId ++ ":\n" ++ parse_tool_result_content content)
      :: blockParts rest

/-- The `tool_calls` vector built by the regular-message loop of
`convert_anthropic_to_openai`. -/
def blockToolCalls : List ContentBlock → List OpenAIToolCall
  | [] => []
  | .toolUse id name input :: rest =>
    ⟨id, "function", ⟨name, serializeJson input⟩⟩ :: blockToolCalls rest
  | _ :: rest => blockToolCalls rest

/-- The per-message body of the conversion loop in
`convert_anthropic_to_openai`: each Anthropic message yields exactly one
OpenAI message. -/
def convertOneMessage (msg : Message) : OpenAIMessage :=
  match msg.content with
  | .text text => ⟨msg.role, .text text, none, none, none⟩
  | .blocks blocks =>
    let hasToolResults := blocks.any hasToolResultB
    if msg.role = "user" ∧ hasToolResults = true then
      ⟨"user", .text (rustTrim (toolResultMessageText blocks)), none, none, none⟩
    else
      let parts := blockParts blocks
      let toolCalls := blockToolCalls blocks
      let content : OpenAIContent :=
        match parts with
        | [p] =>
          match p with
          | .text t => .text t
          | _ => .parts parts
        | [] => .text "..."
        | _ => .parts parts
      let toolCallsOpt := if toolCalls.isEmpty then none else some toolCalls
      ⟨msg.role, content, none, toolCallsOpt, none⟩

/-- `convert_anthropic_to_openai` (convert.rs): translate an Anthropic
request into the OpenAI chat-completion shape. -/
def convert_anthropic_to_openai (request : MessagesRequest)
    (mappedModel : MappedModel) : OpenAIRequest :=
  let systemMessages : List OpenAIMessage :=
    match request.system with
    | some system => [⟨"system", .text (extract_system_text system), none, none, none⟩]
    | none => []
  let messages := systemMessages ++ request.messages.map convertOneMessage
  let maxTokens :=
    if mappedModel.provider = "openai" ∨ mappedModel.provider = "gemini" then
      some (min request.maxTokens 16384)
    else some request.maxTokens
  let tools := request.tools.map fun tools =>
    tools.map fun tool =>
      let params :=
        if mappedModel.provider = "gemini" then clean_gemini_schema tool.inputSchema
        else tool.inputSchema
      OpenAITool.mk "function" ⟨tool.name, tool.description, params⟩
  let toolChoice := request.toolChoice.map fun tc =>
    if tc.choiceType = "auto" then Json.str "auto"
    else if tc.choiceType = "any" then Json.str "any"
    else if tc.choiceType = "tool" then
      match tc.name with
      | some name =>
        Json.obj [("type", .str "function"), ("function", .obj [("name", .str name)])]
      | none => Json.str "auto"
    else Json.str "auto"
  ⟨mappedModel.fullName, messages, maxTokens, request.stopSequences,
   request.stream, tools, toolChoice⟩

/-- The `finish_reason → stop_reason` match inside
`convert_openai_to_anthropic` (convert.rs). -/
def mapFinishReasonConvert (r : String) : StopReason :=
  if r = "stop" then .endTurn
  else if r = "length" then .maxTokens
  else if r = "tool_calls" then .toolUse
  else .endTurn

/-- `convert_openai_to_anthropic` (convert.rs). `jsonParse` stands for
`serde_json::from_str` on the tool-call `arguments` string; on parse failure
the source wraps the raw string as `{"raw": <string>}`. -/
def convert_openai_to_anthropic (jsonParse : String → Option Json)
    (response : OpenAIResponse) (originalModel : String) : MessagesResponse :=
  let choice := response.choices.head?
  let textContent : List ResponseContentBlock :=
    match choice with
    | some choice =>
      match choice.message.content with
      | some text => if text ≠ "" then [.text text] else []
      | none => []
    | none => []
  let toolContent : List ResponseContentBlock :=
    match choice with
    | some choice =>
      match choice.message.toolCalls with
      | some toolCalls =>
        toolCalls.map fun tc =>
          .toolUse tc.id tc.function.name
            ((jsonParse tc.function.arguments).getD
              (Json.obj [("raw", .str tc.function.arguments)]))
      | none => []
    | none => []
  let content0 := textContent ++ toolContent
  let content := if content0.isEmpty then [.text ""] else content0
  let stopReason := choice.bind fun c => c.finishReason.map mapFinishReasonConvert
  ⟨response.id, originalModel, "assistant", content, "message", stopReason, none,
   ⟨response.usage.promptTokens, response.usage.completionTokens, 0, 0⟩⟩

/-! ## Token counting (`count_tokens`, server.rs) -/

/-- System-content byte count in `count_tokens`. -/
def systemChars : Option SystemContent → Nat
  | none => 0
  | some (.text text) => text.utf8ByteSize
  | some (.blocks blocks) => (blocks.map fun b => b.text.utf8ByteSize).sum

/-- Byte count of tool-result content in `count_tokens` (only nested text
blocks are counted). -/
def toolResultContentChars : ToolResultContent → Nat
  | .text text => text.utf8ByteSize
  | .blocks innerBlocks =>
    (innerBlocks.map fun b =>
      match b with
      | .text text => text.utf8ByteSize
      | _ => 0).sum

/-- Per-content-block byte count in `count_tokens`. -/
def blockChars : ContentBlock → Nat
  | .text text => text.utf8ByteSize
  | .toolResult _ content _ => toolResultContentChars content
  | _ => 0

/-- Per-message byte count in `count_tokens`. -/
def messageChars (msg : Message) : Nat :=
  match msg.content with
  | .text text => text.utf8ByteSize
  | .blocks blocks => (blocks.map blockChars).sum

/-- Per-tool byte count in `count_tokens`: name, optional description, and
the serialized `input_schema`. -/
def toolChars (tool : Tool) : Nat :=
  tool.name.utf8ByteSize +
    (match tool.description with
     | some desc => desc.utf8ByteSize
     | none => 0) +
    (serializeJson tool.inputSchema).utf8ByteSize

/-- `count_tokens` (server.rs): estimate `input_tokens` as
`(char_count / 4).max(1)`. -/
def count_tokens (request : TokenCountRequest) : TokenCountResponse :=
  let charCount :=
    systemChars request.system +
      (request.messages.map messageChars).sum +
      (match request.tools with
       | some tools => (tools.map toolChars).sum
       | none => 0)
  ⟨Nat.max (charCount / 4) 1⟩

/-- The character count exactly as C7 words it: the summed UTF-8 byte
lengths of all system text, all text content of messages (including text
nested inside tool_result blocks), each tool name, each present tool
description, and each JSON-serialized input schema. -/
def claimTokenChars (request : TokenCountRequest) : Nat :=
  (match request.system with
   | none => 0
   | some (.text text) => text.utf8ByteSize
   | some (.blocks blocks) => (blocks.map fun b => b.text.utf8ByteSize).sum) +
  (request.messages.map fun msg =>
    match msg.content with
    | .text text => text.utf8ByteSize
    | .blocks blocks =>
      (blocks.map fun b =>
        match b with
        | .text text => text.utf8ByteSize
        | .toolResult _ (.text text) _ => text.utf8ByteSize
        | .toolResult _ (.blocks innerBlocks) _ =>
          (innerBlocks.map fun inner =>
            match inner with
            | .text text => text.utf8ByteSize
            | _ => 0).sum
        | _ => 0).sum).sum +
  (match request.tools with
   | some tools =>
     (tools.map fun tool =>
       tool.name.utf8ByteSize +
         (match tool.description with
          | some desc => desc.utf8ByteSize
          | none => 0) +
         (serializeJson tool.inputSchema).utf8ByteSize).sum
   | none => 0)

/-- The C7 concrete scenario: system `"abcd"`, one message `"efghijkl"`,
one tool named `"xy"` with schema `{"type":"object"}`. -/
def c7ExampleRequest : TokenCountRequest :=
  { model := "claude-3"
    messages := [⟨"user", .text "efghijkl"⟩]
    system := some (.text "abcd")
    tools := some [{ name := "xy", inputSchema := .obj [("type", .str "object")] }] }

/-- C7: `count_tokens` returns `max(1, floor(chars/4))` with `chars` summed
exactly as the claim enumerates, and the concrete example yields 7. -/
theorem count_tokens_formula :
    (∀ request : TokenCountRequest,
        count_tokens request = ⟨Nat.max 1 (claimTokenChars request / 4)⟩) ∧
      count_tokens c7ExampleRequest = ⟨7⟩ := by
  constructor
  · intro request
    have hchars :
        systemChars request.system +
            (request.messages.map messageChars).sum +
            (match request.tools with
             | some tools => (tools.map toolChars).sum
             | none => 0) = claimTokenChars request := by
      have hmsg : ∀ msg : Message,
          messageChars msg =
            (match msg.content with
             | .text text => text.utf8ByteSize
             | .blocks blocks =>
               (blocks.map fun b =>
                 match b with
                 | .text text => text.utf8ByteSize
                 | .toolResult _ (.text text) _ => text.utf8ByteSize
                 | .toolResult _ (.blocks innerBlocks) _ =>
                   (innerBlocks.map fun inner =>
                     match inner with
                     | .text text => text.utf8ByteSize
                     | _ => 0).sum
                 | _ => 0).sum) := by
        intro msg
        cases msg with
        | mk role content =>
          cases content with
          | text t => rfl
          | blocks blocks =>
            simp only [messageChars]
            congr 1
            refine List.map_congr_left ?_
            intro b _
            cases b with
            | text t => rfl
            | image s => rfl
            | toolUse i n inp => rfl
            | toolResult i c e => cases c <;> rfl
      simp only [claimTokenChars, systemChars, toolChars]
      congr 1
      congr 1
      exact congrArg List.sum (List.map_congr_left fun msg _ => hmsg msg)
    simp only [count_tokens, hchars, Nat.max_comm]
  · rfl

/-- The `finish_reason → stop_reason` match inside the streaming translator
`stream_openai_request` (client.rs); textually the same mapping as the
non-streaming one. -/
def mapFinishReasonStream (r : String) : StopReason :=
  if r = "stop" then .endTurn
  else if r = "length" then .maxTokens
  else if r = "tool_calls" then .toolUse
  else .endTurn

/-- C5: in both the non-streaming and the streaming translator, the emitted
stop reason is `max_tokens` iff the finish reason is `"length"`, `tool_use`
iff it is `"tool_calls"`, and `end_turn` in every other case. -/
theorem finish_reason_mapping (r : String) :
    ((mapFinishReasonConvert r = .maxTokens ↔ r = "length") ∧
      (mapFinishReasonConvert r = .toolUse ↔ r = "tool_calls") ∧
      (mapFinishReasonConvert r = .endTurn ↔ (r ≠ "length" ∧ r ≠ "tool_calls"))) ∧
    ((mapFinishReasonStream r = .maxTokens ↔ r = "length") ∧
      (mapFinishReasonStream r = .toolUse ↔ r = "tool_calls") ∧
      (mapFinishReasonStream r = .endTurn ↔ (r ≠ "length" ∧ r ≠ "tool_calls"))) := by
  unfold mapFinishReasonConvert mapFinishReasonStream
  split_ifs with h1 h2 h3 <;> simp_all

/-- Inserting the zero-length text block keeps response content non-empty. -/
theorem ensure_nonempty_length (l : List ResponseContentBlock) :
    1 ≤ (if l.isEmpty then [ResponseContentBlock.text ""] else l).length := by
  cases l <;> simp

/-- C6: every translated non-streaming response has at least one content
block (a zero-length text block is inserted when upstream produced neither
text nor tool calls, including when there are no choices at all). -/
theorem convert_openai_content_nonempty (jsonParse : String → Option Json)
    (response : OpenAIResponse) (originalModel : String) :
    1 ≤ (convert_openai_to_anthropic jsonParse response originalModel).content.length := by
  simp only [convert_openai_to_anthropic]
  exact ensure_nonempty_length _

/-! ## C3 / C10: flattening of user messages containing tool results -/

/-- Concatenation of a list of strings in order. -/
def concatAll : List String → String
  | [] => ""
  | s :: rest => s ++ concatAll rest

/-- The flattened text of a tool-result-bearing user message as the amended
C3 describes it: each text block contributes its text followed by a newline,
each tool_result the literal `"Tool result for <id>:\n<result>\n"`, every
other block nothing; the concatenation is trimmed of surrounding
whitespace. -/
def flattenedClaimText (blocks : List ContentBlock) : String :=
  rustTrim (concatAll (blocks.map fun b =>
    match b with
    | .text t => t ++ "\n"
    | .toolResult toolUseId content _ =>
      "Tool result for " ++ toolUseId ++ ":\n" ++ parse_tool_result_content content ++ "\n"
    | _ => ""))

/-- The flattened text exactly as C3 literally words it — text blocks
concatenated as-is with nothing added, no trimming. -/
def c3ClaimLiteralText (blocks : List ContentBlock) : String :=
  concatAll (blocks.map fun b =>
    match b with
    | .text t => t
    | .toolResult toolUseId content _ =>
      "Tool result for " ++ toolUseId ++ ":\n" ++ parse_tool_result_content content ++ "\n"
    | _ => "")

/-- The flattening loop agrees with per-block contribution concatenation. -/
theorem toolResultMessageText_eq (blocks : List ContentBlock) :
    toolResultMessageText blocks =
      concatAll (blocks.map fun b =>
        match b with
        | .text t => t ++ "\n"
        | .toolResult toolUseId content _ =>
          "Tool result for " ++ toolUseId ++ ":\n"
            ++ parse_tool_result_content content ++ "\n"
        | _ => "") := by
  induction blocks with
  | nil => rfl
  | cons b rest ih =>
    cases b <;> simp [toolResultMessageText, concatAll, ih]

/-- The message content blocks of the C3 counterexample. -/
def c3Blocks : List ContentBlock :=
  [.text "a", .toolResult "id" (.text "r") none]

/-- A request holding a single user message with a text block and a
tool_result block. -/
def c3Request : MessagesRequest :=
  { model := "claude-3", maxTokens := 1
    messages := [⟨"user", .blocks c3Blocks⟩] }

/-- A routed model for exercising the converter. -/
def c3Mapped : MappedModel :=
  ⟨"openai", "gpt-4.1", "openai/gpt-4.1"⟩

/-- C3 counterexample: the converter emits
`"a\nTool result for id:\nr"` — a newline is appended after the text block
and the final newline is trimmed — which differs from the claim's literal
flattening `"aTool result for id:\nr\n"`. -/
theorem c3_flatten_counterexample :
    (convert_anthropic_to_openai c3Request c3Mapped).messages[0]? =
        some ⟨"user", .text "a\nTool result for id:\nr", none, none, none⟩ ∧
      "a\nTool result for id:\nr" ≠ c3ClaimLiteralText c3Blocks := by
  constructor
  · rfl
  · decide

/-- C3 (amended): a user message with content blocks containing a
tool_result is flattened to a single plain-text `user` message whose text is
the trimmed concatenation of `text + "\n"` per text block and
`"Tool result for <id>:\n<result>\n"` per tool_result block. -/
theorem convert_flattens_tool_result_message
    (request : MessagesRequest) (mappedModel : MappedModel) (i : Nat)
    (role : String) (blocks : List ContentBlock)
    (hmsg : request.messages[i]? = some ⟨role, .blocks blocks⟩)
    (hrole : role = "user")
    (htr : blocks.any hasToolResultB = true) :
    (convert_anthropic_to_openai request mappedModel).messages[
        (if request.system.isSome then 1 else 0) + i]? =
      some ⟨"user", .text (flattenedClaimText blocks), none, none, none⟩ := by
  subst hrole
  have hone : convertOneMessage ⟨"user", .blocks blocks⟩ =
      ⟨"user", .text (flattenedClaimText blocks), none, none, none⟩ := by
    simp [convertOneMessage, htr, flattenedClaimText, toolResultMessageText_eq]
  simp only [convert_anthropic_to_openai]
  cases hs : request.system with
  | none =>
    simp [hs, List.getElem?_map, hmsg, hone]
  | some sys =>
    simp only [hs, Option.isSome_some, if_pos, List.singleton_append,
      Nat.add_comm 1 i, List.getElem?_cons_succ, List.getElem?_map, hmsg,
      Option.map_some', hone]

/-- Witness for the amended C3 at the concrete request `c3Request`. -/
theorem convert_flattens_tool_result_witness :
    c3Blocks.any hasToolResultB = true ∧
      (convert_anthropic_to_openai c3Request c3Mapped).messages[
          (if c3Request.system.isSome then 1 else 0) + 0]? =
        some ⟨"user", .text (flattenedClaimText c3Blocks), none, none, none⟩ :=
  ⟨rfl, convert_flattens_tool_result_message c3Request c3Mapped 0 "user" c3Blocks
    rfl rfl rfl⟩

/-- The blocks a flattened user message keeps: text and tool_result. -/
def keepTextToolResultB : ContentBlock → Bool
  | .text _ => true
  | .toolResult .. => true
  | _ => false

/-- Image and tool_use blocks contribute nothing to the flattening loop. -/
theorem toolResultMessageText_filter (blocks : List ContentBlock) :
    toolResultMessageText (blocks.filter keepTextToolResultB) =
      toolResultMessageText blocks := by
  induction blocks with
  | nil => rfl
  | cons b rest ih =>
    cases b <;>
      simp [List.filter_cons, keepTextToolResultB, toolResultMessageText, ih]

/-- C10: when a tool-result-bearing user message is flattened, image and
tool_use blocks in that message are silently discarded — the translated
message equals the one obtained after dropping them, carries no tool_calls
entry, and its content is a single plain text. -/
theorem flatten_discards_image_and_tool_use (role : String)
    (blocks : List ContentBlock) (hrole : role = "user")
    (htr : blocks.any hasToolResultB = true) :
    convertOneMessage ⟨role, .blocks blocks⟩ =
        convertOneMessage ⟨role, .blocks (blocks.filter keepTextToolResultB)⟩ ∧
      (convertOneMessage ⟨role, .blocks blocks⟩).toolCalls = none ∧
      ∃ t, (convertOneMessage ⟨role, .blocks blocks⟩).content = .text t := by
  subst hrole
  have hany : (blocks.filter keepTextToolResultB).any hasToolResultB = true := by
    rw [List.any_eq_true] at htr ⊢
    obtain ⟨b, hb, hpb⟩ := htr
    refine ⟨b, List.mem_filter.mpr ⟨hb, ?_⟩, hpb⟩
    cases b <;> simp_all [hasToolResultB, keepTextToolResultB]
  refine ⟨?_, ?_, ?_⟩
  · simp [convertOneMessage, htr, hany, toolResultMessageText_filter]
  · simp [convertOneMessage, htr]
  · refine ⟨rustTrim (toolResultMessageText blocks), ?_⟩
    simp [convertOneMessage, htr]

/-- The C10 witness blocks: a tool_use, a tool_result, and an image. -/
def c10Blocks : List ContentBlock :=
  [.toolUse "tid" "tname" (.obj []),
   .toolResult "id" (.text "r") none,
   .image ⟨"base64", "image/png", "AA"⟩]

/-- Witness for C10 at the concrete block list `c10Blocks`. -/
theorem flatten_discards_witness :
    c10Blocks.any hasToolResultB = true ∧
      (convertOneMessage ⟨"user", .blocks c10Blocks⟩ =
          convertOneMessage
            ⟨"user", .blocks (c10Blocks.filter keepTextToolResultB)⟩ ∧
        (convertOneMessage ⟨"user", .blocks c10Blocks⟩).toolCalls = none ∧
        ∃ t, (convertOneMessage ⟨"user", .blocks c10Blocks⟩).content = .text t) :=
  ⟨rfl, flatten_discards_image_and_tool_use "user" c10Blocks rfl rfl⟩

/-! ## Streaming types (`types.rs`, `client.rs`) -/

/-- `StreamUsage` (types.rs). -/
structure StreamUsage where
  inputTokens : Nat
  outputTokens : Nat
  cacheCreationInputTokens : Nat
  cacheReadInputTokens : Nat
  deriving Repr, DecidableEq

/-- `StreamMessage` (types.rs). -/
structure StreamMessage where
  id : String
  messageType : String
  role : String
  model : String
  content : List Json
  stopReason : Option StopReason
  stopSequence : Option String
  usage : StreamUsage
  deriving DecidableEq

/-- `StreamContentBlock` (types.rs). -/
inductive StreamContentBlock where
  | text (text : String)
  | toolUse (id : String) (name : String) (input : Json)
  deriving DecidableEq

/-- `StreamDelta` (types.rs); `payload` stands for the `partial_json`
field of the `input_json_delta` variant. -/
inductive StreamDelta where
  | textDelta (text : String)
  | inputJsonDelta (payload : String)
  deriving DecidableEq

/-- `MessageDeltaData` (types.rs). -/
structure MessageDeltaData where
  stopReason : Option StopReason
  stopSequence : Option String
  deriving DecidableEq

/-- `StreamEvent` (types.rs): the Anthropic stream event union. -/
inductive StreamEvent where
  | messageStart (message : StreamMessage)
  | contentBlockStart (index : Nat) (contentBlock : StreamContentBlock)
  | contentBlockDelta (index : Nat) (delta : StreamDelta)
  | contentBlockStop (index : Nat)
  | messageDelta (delta : MessageDeltaData) (usage : StreamUsage)
  | messageStop
  | ping
  deriving DecidableEq

/-- `OpenAIStreamFunction` (client.rs). -/
structure OpenAIStreamFunction where
  name : Option String
  arguments : Option String
  deriving Repr, DecidableEq

/-- `OpenAIStreamToolCall` (client.rs). -/
structure OpenAIStreamToolCall where
  index : Option Nat
  id : Option String
  callType : Option String
  function : Option OpenAIStreamFunction
  deriving Repr, DecidableEq

/-- `OpenAIStreamDelta` (client.rs). -/
structure OpenAIStreamDelta where
  role : Option String
  content : Option String
  toolCalls : Option (List OpenAIStreamToolCall)
  deriving Repr, DecidableEq

/-- `OpenAIStreamChoice` (client.rs). -/
structure OpenAIStreamChoice where
  index : Nat
  delta : OpenAIStreamDelta
  finishReason : Option String
  deriving Repr, DecidableEq

/-- `OpenAIStreamUsage` (client.rs). -/
structure OpenAIStreamUsage where
  promptTokens : Nat
  completionTokens : Nat
  totalTokens : Nat
  deriving Repr, DecidableEq

/-- `OpenAIStreamChunk` (client.rs). -/
structure OpenAIStreamChunk where
  id : Option String
  choices : List OpenAIStreamChoice
  usage : Option OpenAIStreamUsage
  deriving Repr, DecidableEq

/-! ## The streaming state machine (`stream_openai_request`, client.rs) -/

/-- The mutable state of the spawned streaming task. `toolIdCtr` is the
modelling counter feeding the `uuid` generator parameter (see the module
docstring); the remaining fields are the task's local variables. -/
structure StreamState where
  sentMessageStart : Bool
  sentContentBlockStart : Bool
  currentToolIndex : Option Nat
  contentIndex : Nat
  toolIdCtr : Nat
  deriving Repr, DecidableEq

/-- The initial state of the streaming task. -/
def initialStreamState : StreamState :=
  ⟨false, false, none, 0, 0⟩

/-- The `message_start` event the task emits first, with the original
requested model and zeroed usage. -/
def msgStartEvent (messageId model : String) : StreamEvent :=
  .messageStart ⟨messageId, "message", "assistant", model, [], none, none, ⟨0, 0, 0, 0⟩⟩

/-- The body of the `for tool_call in tool_calls` loop of the streaming
task: open a new tool_use block when the upstream slot index changes
(closing a still-open text block first), then forward non-empty argument
fragments as `input_json_delta`. -/
def processToolCall (gen : Nat → String) (s : StreamState)
    (tc : OpenAIStreamToolCall) : StreamState × List StreamEvent :=
  let toolIdx := tc.index.getD 0
  let (s1, evs1) :=
    if s.currentToolIndex ≠ some toolIdx then
      let (s', evsClose) :=
        if s.sentContentBlockStart = true ∧ s.currentToolIndex = none then
          ({ s with contentIndex := s.contentIndex + 1 },
           [StreamEvent.contentBlockStop s.contentIndex])
        else (s, [])
      let s' := { s' with currentToolIndex := some toolIdx }
      match tc.function with
      | some f =>
        let idCtr :=
          match tc.id with
          | some i => (i, s'.toolIdCtr)
          | none => ("toolu_" ++ gen s'.toolIdCtr, s'.toolIdCtr + 1)
        ({ s' with toolIdCtr := idCtr.2 },
         evsClose ++ [StreamEvent.contentBlockStart s'.contentIndex
           (.toolUse idCtr.1 (f.name.getD "") (Json.obj []))])
      | none => (s', evsClose)
    else (s, [])
  let evs2 :=
    match tc.function with
    | some f =>
      match f.arguments with
      | some args =>
        if args ≠ "" then
          [StreamEvent.contentBlockDelta s1.contentIndex (.inputJsonDelta args)]
        else []
      | none => []
    | none => []
  (s1, evs1 ++ evs2)

/-- The `for tool_call in tool_calls` loop itself. -/
def processToolCalls (gen : Nat → String) (s : StreamState) :
    List OpenAIStreamToolCall → StreamState × List StreamEvent
  | [] => (s, [])
  | tc :: rest =>
    let r1 := processToolCall gen s tc
    let r2 := processToolCalls gen r1.1 rest
    (r2.1, r1.2 ++ r2.2)

/-- The `message_start` guard at the top of the per-chunk processing:
emit the envelope opener once and set the flag. -/
def msgStartStep (messageId model : String) (s : StreamState) :
    StreamState × List StreamEvent :=
  if s.sentMessageStart = false then
    ({ s with sentMessageStart := true }, [msgStartEvent messageId model])
  else (s, [])

/-- The text-content handling of the per-chunk processing: on non-empty
`delta.content`, open the text block if not yet open and emit a
`text_delta`. -/
def textStep (s : StreamState) (contentOpt : Option String) :
    StreamState × List StreamEvent :=
  match contentOpt with
  | some content =>
    if content ≠ "" then
      let r :=
        if s.sentContentBlockStart = false then
          ({ s with sentContentBlockStart := true },
           [StreamEvent.contentBlockStart s.contentIndex (.text "")])
        else (s, [])
      (r.1, r.2 ++ [StreamEvent.contentBlockDelta r.1.contentIndex (.textDelta content)])
    else (s, [])
  | none => (s, [])

/-- The tool-call handling of the per-chunk processing. -/
def toolsStep (gen : Nat → String) (s : StreamState)
    (toolCallsOpt : Option (List OpenAIStreamToolCall)) :
    StreamState × List StreamEvent :=
  match toolCallsOpt with
  | some toolCalls => processToolCalls gen s toolCalls
  | none => (s, [])

/-- The closing sequence emitted when a chunk carries a `finish_reason`:
`content_block_stop` at the current index, `message_delta` with the mapped
stop reason and the chunk's `completion_tokens` (or 0), and
`message_stop`. -/
def finishEvents (s : StreamState) (chunk : OpenAIStreamChunk)
    (finishReason : String) : List StreamEvent :=
  [StreamEvent.contentBlockStop s.contentIndex,
   StreamEvent.messageDelta
     ⟨some (mapFinishReasonStream finishReason), none⟩
     ⟨0, (chunk.usage.map (·.completionTokens)).getD 0, 0, 0⟩,
   StreamEvent.messageStop]

/-- Processing of one parsed upstream chunk by the streaming task: emit
`message_start` on first contact, text deltas (opening the text block on
first non-empty content), tool-call events, and — when `finish_reason` is
present — the closing `content_block_stop`/`message_delta`/`message_stop`
sequence, returning `true` to stop the task. -/
def processChunk (gen : Nat → String) (messageId model : String)
    (s : StreamState) (chunk : OpenAIStreamChunk) :
    StreamState × List StreamEvent × Bool :=
  let r0 := msgStartStep messageId model s
  match chunk.choices.head? with
  | none => (r0.1, r0.2, false)
  | some choice =>
    let rT := textStep r0.1 choice.delta.content
    let rC := toolsStep gen rT.1 choice.delta.toolCalls
    match choice.finishReason with
    | some finishReason =>
      (rC.1, r0.2 ++ rT.2 ++ rC.2 ++ finishEvents rC.1 chunk finishReason, true)
    | none => (rC.1, r0.2 ++ rT.2 ++ rC.2, false)

/-- One framed SSE `data:` payload as seen by the task: a chunk that parsed,
a payload that failed to parse (ignored), or the `[DONE]` sentinel. -/
inductive StreamInput where
  | parsed (chunk : OpenAIStreamChunk)
  | unparseable
  | doneMark
  deriving Repr, DecidableEq

/-- `stream_openai_request` (client.rs), as the event sequence the spawned
task sends for a given sequence of SSE payloads: `[DONE]` and the end of the
byte stream each emit a final `message_stop`; a chunk carrying a
`finish_reason` ends the task right after its own events. -/
def stream_openai_request (gen : Nat → String) (messageId model : String) :
    StreamState → List StreamInput → List StreamEvent
  | _, [] => [.messageStop]
  | _, .doneMark :: _ => [.messageStop]
  | s, .unparseable :: rest => stream_openai_request gen messageId model s rest
  | s, .parsed chunk :: rest =>
    let r := processChunk gen messageId model s chunk
    if r.2.2 then r.2.1
    else r.2.1 ++ stream_openai_request gen messageId model r.1 rest

/-! ## C2: the text-then-tool-call concrete trace -/

/-- C2 chunk 1: `{delta:{content:"OK"}}`. -/
def c2Chunk1 : OpenAIStreamChunk :=
  ⟨none, [⟨0, ⟨none, some "OK", none⟩, none⟩], none⟩

/-- C2 chunk 2: first tool-call fragment with id, name and the argument
fragment `{"x":`. -/
def c2Chunk2 : OpenAIStreamChunk :=
  ⟨none, [⟨0, ⟨none, none, some [⟨some 0, some "call_1", none,
    some ⟨some "f", some "\x7b\"x\":"⟩⟩]⟩, none⟩], none⟩

/-- C2 chunk 3: second tool-call fragment carrying only the argument
fragment `1}`. -/
def c2Chunk3 : OpenAIStreamChunk :=
  ⟨none, [⟨0, ⟨none, none, some [⟨some 0, none, none,
    some ⟨none, some "1\x7d"⟩⟩]⟩, none⟩], none⟩

/-- C2 chunk 4: `{delta:{}, finish_reason:"tool_calls"}`. -/
def c2Chunk4 : OpenAIStreamChunk :=
  ⟨none, [⟨0, ⟨none, none, none⟩, some "tool_calls"⟩], none⟩

/-- C2: on the four-chunk upstream sequence, the streaming translator emits
exactly, in order: `message_start`, `content_block_start(0, text)`,
`content_block_delta(0, "OK")`, `content_block_stop(0)`,
`content_block_start(1, tool_use, id=call_1, name=f, input={})`,
`content_block_delta(1, input_json_delta "{\"x\":")`,
`content_block_delta(1, input_json_delta "1}")`, `content_block_stop(1)`,
`message_delta(stop_reason=tool_use)`, `message_stop`. -/
theorem stream_text_then_tool_trace (gen : Nat → String) (messageId model : String) :
    stream_openai_request gen messageId model initialStreamState
        [.parsed c2Chunk1, .parsed c2Chunk2, .parsed c2Chunk3, .parsed c2Chunk4] =
      [msgStartEvent messageId model,
       .contentBlockStart 0 (.text ""),
       .contentBlockDelta 0 (.textDelta "OK"),
       .contentBlockStop 0,
       .contentBlockStart 1 (.toolUse "call_1" "f" (.obj [])),
       .contentBlockDelta 1 (.inputJsonDelta "\x7b\"x\":"),
       .contentBlockDelta 1 (.inputJsonDelta "1\x7d"),
       .contentBlockStop 1,
       .messageDelta ⟨some .toolUse, none⟩ ⟨0, 0, 0, 0⟩,
       .messageStop] := by
  rfl

/-! ## C4: tool_use `content_block_start` requires a `function` field -/

/-- A concrete generator for the `uuid` parameter. -/
def c4Gen : Nat → String := fun _ => "u"

/-- A tool-call entry carrying a slot index but no `id` and no `function`. -/
def c4NoFunctionTc : OpenAIStreamToolCall :=
  ⟨some 0, none, none, none⟩

/-- A tool-call entry carrying a slot index and a function name but no id
and no arguments. -/
def c4FunTc : OpenAIStreamToolCall :=
  ⟨some 0, some "call_1", none, some ⟨some "f", none⟩⟩

/-- C4 counterexample: for an entry whose slot index (0) differs from the
currently open slot (none) but which carries no `function` field, the
translator emits no event at all — in particular no `content_block_start`. -/
theorem tool_call_no_function_no_start :
    initialStreamState.currentToolIndex ≠ some (c4NoFunctionTc.index.getD 0) ∧
      (processToolCall c4Gen initialStreamState c4NoFunctionTc).2 = [] := by
  constructor
  · decide
  · rfl

/-- C4 (amended): when a tool-call entry's slot index differs from the
currently open slot, the translator emits
`content_block_start(content_index, tool_use{id: entry id or generated
"toolu_"+uuid, name: function name or "", input: {}})` only when the entry
carries a `function` field; with no `function` field no
`content_block_start` is emitted (the slot is still recorded and a
still-open text block is still closed). -/
theorem tool_call_start_requires_function (gen : Nat → String)
    (s : StreamState) (tc : OpenAIStreamToolCall)
    (hnew : s.currentToolIndex ≠ some (tc.index.getD 0)) :
    (∀ f, tc.function = some f →
        (StreamEvent.contentBlockStart
            (processToolCall gen s tc).1.contentIndex
            (.toolUse (tc.id.getD ("toolu_" ++ gen s.toolIdCtr))
              (f.name.getD "") (Json.obj []))) ∈
          (processToolCall gen s tc).2) ∧
      (tc.function = none →
        ∀ i cb, StreamEvent.contentBlockStart i cb ∉ (processToolCall gen s tc).2) := by
  constructor
  · intro f hf
    simp only [processToolCall, hf, if_pos hnew]
    by_cases hclose : s.sentContentBlockStart = true ∧ s.currentToolIndex = none
    · rcases htc : tc.id with _ | tid <;>
        rcases hargs : f.arguments with _ | args <;>
        simp [hclose, htc, hargs]
    · rcases htc : tc.id with _ | tid <;>
        rcases hargs : f.arguments with _ | args <;>
        simp [hclose, htc, hargs]
  · intro hf i cb
    simp only [processToolCall, hf, if_pos hnew]
    by_cases hclose : s.sentContentBlockStart = true ∧ s.currentToolIndex = none <;>
      simp [hclose]

/-- Witness for the amended C4: at the concrete entry `c4FunTc` (function
present, id present) the start event is emitted with id `call_1`, name `f`
and empty input. -/
theorem tool_call_start_requires_function_witness :
    initialStreamState.currentToolIndex ≠ some (c4FunTc.index.getD 0) ∧
      (StreamEvent.contentBlockStart
          (processToolCall c4Gen initialStreamState c4FunTc).1.contentIndex
          (.toolUse (c4FunTc.id.getD ("toolu_" ++ c4Gen initialStreamState.toolIdCtr))
            ((⟨some "f", none⟩ : OpenAIStreamFunction).name.getD "") (Json.obj []))) ∈
        (processToolCall c4Gen initialStreamState c4FunTc).2 :=
  ⟨by decide,
   (tool_call_start_requires_function c4Gen initialStreamState c4FunTc
      (by decide)).1 ⟨some "f", none⟩ rfl⟩

/-! ## C1: client-visible stream event ordering -/

/-- Is this a `message_start` event? -/
def isMessageStartB : StreamEvent → Bool
  | .messageStart _ => true
  | _ => false

/-- Is this a `message_stop` event? -/
def isMessageStopB : StreamEvent → Bool
  | .messageStop => true
  | _ => false

/-- Is this a `content_block_start` at index `i`? -/
def isBlockStartIdxB (i : Nat) : StreamEvent → Bool
  | .contentBlockStart j _ => j == i
  | _ => false

/-- Is this a `content_block_stop` at index `i`? -/
def isBlockStopIdxB (i : Nat) : StreamEvent → Bool
  | .contentBlockStop j => j == i
  | _ => false

/-- Is this a content-block-level event (start, delta or stop)? -/
def isBlockEventB : StreamEvent → Bool
  | .contentBlockStart .. => true
  | .contentBlockDelta .. => true
  | .contentBlockStop _ => true
  | _ => false

/-- The indices of `content_block_start` events, in emission order. -/
def startIdxs (evs : List StreamEvent) : List Nat :=
  evs.filterMap fun e =>
    match e with
    | .contentBlockStart i _ => some i
    | _ => none

/-- The indices of `content_block_stop` events, in emission order. -/
def stopIdxs (evs : List StreamEvent) : List Nat :=
  evs.filterMap fun e =>
    match e with
    | .contentBlockStop i => some i
    | _ => none

/-- The index sequence of successively opened blocks is contiguous and
non-decreasing: starting from `n`, each opened index equals the previous
one or (when a block boundary was crossed, `bump`) its successor. -/
def stepsOK : Nat → Bool → List Nat → Prop
  | _, _, [] => True
  | n, bump, x :: xs => (x = n ∨ (bump = true ∧ x = n + 1)) ∧ stepsOK x true xs

/-- A text block is currently open, so a tool-call transition would close
it and advance the content index. -/
def canBump (s : StreamState) : Bool :=
  s.sentContentBlockStart && s.currentToolIndex.isNone

/-- The ordering property C1 claims of every client-visible event
sequence: exactly one `message_start`, first; at most one
`content_block_stop(i)` per started index `i`; opened indices contiguous
non-decreasing from 0; every `message_delta` strictly before a
`message_stop`; and a single final `message_stop`. -/
def clientStreamOK (evs : List StreamEvent) : Prop :=
  evs.countP isMessageStartB = 1 ∧
  (∃ m, evs.head? = some (.messageStart m)) ∧
  (∀ i, 1 ≤ evs.countP (isBlockStartIdxB i) → evs.countP (isBlockStopIdxB i) ≤ 1) ∧
  stepsOK 0 false (startIdxs evs) ∧
  (∀ (i : Nat) (d : MessageDeltaData) (u : StreamUsage),
    evs[i]? = some (StreamEvent.messageDelta d u) →
    ∃ j : Nat, i < j ∧ evs[j]? = some StreamEvent.messageStop) ∧
  (∃ l, evs = l ++ [.messageStop] ∧ l.countP isMessageStopB = 0)

/-- Whether the first significant SSE payload (skipping unparseable ones)
is a parsed chunk — i.e. the state machine processes at least one chunk. -/
def firstSigIsChunk : List StreamInput → Bool
  | [] => false
  | .parsed _ :: _ => true
  | .unparseable :: rest => firstSigIsChunk rest
  | .doneMark :: _ => false

/-- `stepsOK` can always weaken the bump capability to `true`. -/
theorem stepsOK_to_true {n : Nat} {b : Bool} {l : List Nat}
    (h : stepsOK n b l) : stepsOK n true l := by
  cases l with
  | nil => trivial
  | cons x xs =>
    obtain ⟨h1, h2⟩ := h
    refine ⟨?_, h2⟩
    rcases h1 with h1 | ⟨_, h1⟩
    · exact Or.inl h1
    · exact Or.inr ⟨rfl, h1⟩

/-- A sequence stepping from `n+1` without bump also steps from `n` with
bump. -/
theorem stepsOK_next {n : Nat} {l : List Nat}
    (h : stepsOK (n + 1) false l) : stepsOK n true l := by
  cases l with
  | nil => trivial
  | cons x xs =>
    obtain ⟨h1, h2⟩ := h
    rcases h1 with h1 | ⟨hfalse, _⟩
    · exact ⟨Or.inr ⟨rfl, h1⟩, h2⟩
    · cases hfalse

/-- `startIdxs` distributes over append. -/
theorem startIdxs_append (a b : List StreamEvent) :
    startIdxs (a ++ b) = startIdxs a ++ startIdxs b :=
  List.filterMap_append a b _

/-- `stopIdxs` distributes over append. -/
theorem stopIdxs_append (a b : List StreamEvent) :
    stopIdxs (a ++ b) = stopIdxs a ++ stopIdxs b :=
  List.filterMap_append a b _

/-- Counting `content_block_stop(i)` events equals counting `i` among the
stop indices. -/
theorem countP_stop_eq (i : Nat) (evs : List StreamEvent) :
    evs.countP (isBlockStopIdxB i) = (stopIdxs evs).countP (fun j => j == i) := by
  induction evs with
  | nil => rfl
  | cons e rest ih =>
    cases e <;>
      simp [stopIdxs, List.filterMap_cons, List.countP_cons, isBlockStopIdxB, ih]

/-- A strictly increasing list of naturals holds any value at most once. -/
theorem countP_le_one_of_pairwise {l : List Nat}
    (h : l.Pairwise (· < ·)) (i : Nat) :
    l.countP (fun j => j == i) ≤ 1 := by
  induction l with
  | nil => simp
  | cons x xs ih =>
    rw [List.pairwise_cons] at h
    obtain ⟨hx, hxs⟩ := h
    by_cases hxi : x = i
    · subst hxi
      have hz : xs.countP (fun j => j == x) = 0 := by
        rw [List.countP_eq_zero]
        intro j hj
        have := hx j hj
        simp only [beq_iff_eq]
        omega
      simp [List.countP_cons, hz]
    · simp only [List.countP_cons, beq_iff_eq, hxi, if_false]
      simpa using ih hxs

/-- `stepsOK` can weaken a no-bump sequence to any bump capability. -/
theorem stepsOK_of_false {n : Nat} {b : Bool} {l : List Nat}
    (h : stepsOK n false l) : stepsOK n b l := by
  cases b
  · exact h
  · exact stepsOK_to_true h

/-- Per-entry invariants of the tool-call loop body: it emits no
message-level events; it preserves `sent_message_start`; the content index
never decreases; it emits either no `content_block_stop` or exactly one at
the old content index while advancing the index by one; and the indices of
the `content_block_start` events it emits extend any contiguous
continuation into a contiguous sequence. -/
theorem processToolCall_spec (gen : Nat → String) (s : StreamState)
    (tc : OpenAIStreamToolCall) :
    (processToolCall gen s tc).2.countP isMessageStartB = 0 ∧
    (processToolCall gen s tc).2.countP isMessageStopB = 0 ∧
    (processToolCall gen s tc).1.sentMessageStart = s.sentMessageStart ∧
    s.contentIndex ≤ (processToolCall gen s tc).1.contentIndex ∧
    (stopIdxs (processToolCall gen s tc).2 = [] ∨
      (stopIdxs (processToolCall gen s tc).2 = [s.contentIndex] ∧
        (processToolCall gen s tc).1.contentIndex = s.contentIndex + 1)) ∧
    (∀ B, stepsOK (processToolCall gen s tc).1.contentIndex
        (canBump (processToolCall gen s tc).1) B →
      stepsOK s.contentIndex (canBump s) (startIdxs (processToolCall gen s tc).2 ++ B)) := by
  obtain ⟨tidx, tid, tct, tf⟩ := tc
  by_cases hnew : s.currentToolIndex ≠ some (tidx.getD 0) <;>
    by_cases hcl : s.sentContentBlockStart = true ∧ s.currentToolIndex = none <;>
    rcases tf with _ | ⟨fn, fargs⟩ <;>
    (try rcases fargs with _ | args) <;>
    (try rcases tid with _ | tidv) <;>
    (try by_cases hargs : ¬ args = "") <;>
    simp only [processToolCall] <;>
    (try simp only [if_pos hnew]) <;>
    (try simp only [if_neg hnew]) <;>
    (try simp only [if_pos hcl]) <;>
    (try simp only [if_neg hcl]) <;>
    refine ⟨?_, ?_, ?_, ?_, ?_, ?_⟩ <;>
    first
      | (simp_all [isMessageStartB, isMessageStopB, startIdxs, stopIdxs, canBump]
         try omega
         done)
      | (intro B hB
         simp_all [startIdxs, canBump]
         first
           | exact hB
           | exact stepsOK_of_false hB
           | exact stepsOK_next hB
           | exact stepsOK_to_true hB
           | exact ⟨Or.inl rfl, stepsOK_to_true hB⟩
           | exact ⟨Or.inr ⟨rfl, rfl⟩, stepsOK_to_true hB⟩)

/-- Invariants of an event segment the streaming task emits while moving
from state `s` to state `s'` without touching the message envelope: no
message-level events, monotone content index, strictly increasing stop
indices bounded by the index movement, and contiguous start indices. -/
def SegOK (s s' : StreamState) (evs : List StreamEvent) : Prop :=
  s'.sentMessageStart = s.sentMessageStart ∧
  evs.countP isMessageStartB = 0 ∧
  evs.countP isMessageStopB = 0 ∧
  s.contentIndex ≤ s'.contentIndex ∧
  (stopIdxs evs).Pairwise (· < ·) ∧
  (∀ j ∈ stopIdxs evs, s.contentIndex ≤ j ∧ j < s'.contentIndex) ∧
  (∀ B, stepsOK s'.contentIndex (canBump s') B →
    stepsOK s.contentIndex (canBump s) (startIdxs evs ++ B))

/-- The empty segment is invariant-preserving. -/
theorem SegOK_refl (s : StreamState) : SegOK s s [] := by
  refine ⟨rfl, rfl, rfl, le_refl _, ?_, ?_, ?_⟩
  · simp [stopIdxs]
  · simp [stopIdxs]
  · intro B hB
    simpa [startIdxs] using hB

/-- Segment invariants compose over consecutive segments. -/
theorem SegOK_comp {s s1 s2 : StreamState} {e1 e2 : List StreamEvent}
    (h1 : SegOK s s1 e1) (h2 : SegOK s1 s2 e2) : SegOK s s2 (e1 ++ e2) := by
  obtain ⟨h1a, h1b, h1c, h1d, h1e, h1f, h1g⟩ := h1
  obtain ⟨h2a, h2b, h2c, h2d, h2e, h2f, h2g⟩ := h2
  refine ⟨h2a.trans h1a, ?_, ?_, h1d.trans h2d, ?_, ?_, ?_⟩
  · simp [List.countP_append, h1b, h2b]
  · simp [List.countP_append, h1c, h2c]
  · rw [stopIdxs_append]
    apply List.pairwise_append.mpr
    refine ⟨h1e, h2e, ?_⟩
    intro a ha b hb
    have hha := h1f a ha
    have hhb := h2f b hb
    omega
  · intro j hj
    rw [stopIdxs_append, List.mem_append] at hj
    rcases hj with hj | hj
    · have := h1f j hj
      omega
    · have := h2f j hj
      omega
  · intro B hB
    rw [startIdxs_append, List.append_assoc]
    exact h1g _ (h2g B hB)

/-- The tool-call loop body emits an invariant-preserving segment. -/
theorem processToolCall_seg (gen : Nat → String) (s : StreamState)
    (tc : OpenAIStreamToolCall) :
    SegOK s (processToolCall gen s tc).1 (processToolCall gen s tc).2 := by
  obtain ⟨h1, h2, h3, h4, h5, h6⟩ := processToolCall_spec gen s tc
  refine ⟨h3, h1, h2, h4, ?_, ?_, h6⟩
  · rcases h5 with h | ⟨h, _⟩ <;> simp [h]
  · intro j hj
    rcases h5 with h | ⟨h, hidx⟩
    · rw [h] at hj
      cases hj
    · rw [h] at hj
      have : j = s.contentIndex := by simpa using hj
      omega

/-- The whole tool-call loop emits an invariant-preserving segment. -/
theorem processToolCalls_seg (gen : Nat → String)
    (tcs : List OpenAIStreamToolCall) : ∀ s : StreamState,
    SegOK s (processToolCalls gen s tcs).1 (processToolCalls gen s tcs).2 := by
  induction tcs with
  | nil =>
    intro s
    simpa [processToolCalls] using SegOK_refl s
  | cons tc rest ih =>
    intro s
    simp only [processToolCalls]
    exact SegOK_comp (processToolCall_seg gen s tc) (ih (processToolCall gen s tc).1)

/-- The `message_start` guard always leaves the flag set and changes
nothing else. -/
theorem msgStartStep_state (messageId model : String) (s : StreamState) :
    (msgStartStep messageId model s).1 = { s with sentMessageStart := true } := by
  simp only [msgStartStep]
  split
  · rfl
  · next h =>
    cases s
    simp_all

/-- Event bookkeeping of the `message_start` guard. -/
theorem msgStartStep_aux (messageId model : String) (s : StreamState) :
    stopIdxs (msgStartStep messageId model s).2 = [] ∧
    startIdxs (msgStartStep messageId model s).2 = [] ∧
    (msgStartStep messageId model s).2.countP isMessageStopB = 0 ∧
    (msgStartStep messageId model s).2.countP isMessageStartB =
      (if s.sentMessageStart = true then 0 else 1) ∧
    (s.sentMessageStart = false →
      (msgStartStep messageId model s).2 = [msgStartEvent messageId model]) := by
  cases hms : s.sentMessageStart <;>
    simp [msgStartStep, hms, stopIdxs, startIdxs, isMessageStopB, isMessageStartB,
      msgStartEvent, List.countP_cons]

/-- The text-content step emits an invariant-preserving segment. -/
theorem textStep_seg (s : StreamState) (contentOpt : Option String) :
    SegOK s (textStep s contentOpt).1 (textStep s contentOpt).2 := by
  rcases contentOpt with _ | content
  · simpa [textStep] using SegOK_refl s
  · by_cases hc : content = ""
    · simpa [textStep, hc] using SegOK_refl s
    · by_cases hf : s.sentContentBlockStart = false
      · simp only [textStep, if_pos hf, ne_eq, hc, not_false_iff, if_true]
        refine ⟨rfl, ?_, ?_, le_refl _, ?_, ?_, ?_⟩
        · simp [isMessageStartB]
        · simp [isMessageStopB]
        · simp [stopIdxs]
        · simp [stopIdxs]
        · intro B hB
          simp only [startIdxs, List.filterMap_append, List.filterMap_cons,
            List.filterMap_nil, List.append_nil, List.nil_append,
            List.singleton_append] at hB ⊢
          exact ⟨Or.inl rfl, stepsOK_to_true hB⟩
      · simp only [textStep, if_neg hf, ne_eq, hc, not_false_iff, if_true]
        refine ⟨rfl, ?_, ?_, le_refl _, ?_, ?_, ?_⟩
        · simp [isMessageStartB]
        · simp [isMessageStopB]
        · simp [stopIdxs]
        · simp [stopIdxs]
        · intro B hB
          simpa [startIdxs] using hB

/-- The tool-call step emits an invariant-preserving segment. -/
theorem toolsStep_seg (gen : Nat → String) (s : StreamState)
    (toolCallsOpt : Option (List OpenAIStreamToolCall)) :
    SegOK s (toolsStep gen s toolCallsOpt).1 (toolsStep gen s toolCallsOpt).2 := by
  rcases toolCallsOpt with _ | toolCalls
  · simpa [toolsStep] using SegOK_refl s
  · simpa [toolsStep] using processToolCalls_seg gen toolCalls s

/-- Event bookkeeping of the finish sequence. -/
theorem finishEvents_aux (s : StreamState) (chunk : OpenAIStreamChunk)
    (finishReason : String) :
    stopIdxs (finishEvents s chunk finishReason) = [s.contentIndex] ∧
    startIdxs (finishEvents s chunk finishReason) = [] ∧
    (finishEvents s chunk finishReason).countP isMessageStartB = 0 := by
  simp [finishEvents, stopIdxs, startIdxs, isMessageStartB]

/-- The finish sequence is a prefix without `message_stop` followed by the
final `message_stop`. -/
theorem finishEvents_split (s : StreamState) (chunk : OpenAIStreamChunk)
    (finishReason : String) :
    ∃ pre, finishEvents s chunk finishReason = pre ++ [StreamEvent.messageStop] ∧
      pre.countP isMessageStopB = 0 := by
  simp only [finishEvents]
  exact ⟨[_, _], rfl, by simp [isMessageStopB]⟩

/-- Full bookkeeping of one chunk step of the streaming task: the
`message_start` flag ends set; exactly one `message_start` is emitted iff
the flag was clear, and then it comes first; the content index grows; stop
indices are strictly increasing, bounded below by the starting index and
(unless the task finished) bounded above by the final index; opened indices
extend contiguously; and `message_stop` is emitted exactly when the task
finishes, as the final event. -/
theorem processChunk_spec (gen : Nat → String) (messageId model : String)
    (s : StreamState) (chunk : OpenAIStreamChunk) (s' : StreamState)
    (evs : List StreamEvent) (stopped : Bool)
    (hr : processChunk gen messageId model s chunk = (s', evs, stopped)) :
    s'.sentMessageStart = true ∧
    evs.countP isMessageStartB = (if s.sentMessageStart = true then 0 else 1) ∧
    (s.sentMessageStart = false → ∃ m, evs.head? = some (StreamEvent.messageStart m)) ∧
    s.contentIndex ≤ s'.contentIndex ∧
    (stopIdxs evs).Pairwise (· < ·) ∧
    (∀ j ∈ stopIdxs evs, s.contentIndex ≤ j) ∧
    (stopped = false → ∀ j ∈ stopIdxs evs, j < s'.contentIndex) ∧
    (∀ B, stepsOK s'.contentIndex (canBump s') B →
      stepsOK s.contentIndex (canBump s) (startIdxs evs ++ B)) ∧
    (stopped = false → evs.countP isMessageStopB = 0) ∧
    (stopped = true → ∃ l, evs = l ++ [StreamEvent.messageStop] ∧
      l.countP isMessageStopB = 0) := by
  obtain ⟨haux1, haux2, haux3, haux4, haux5⟩ := msgStartStep_aux messageId model s
  have hstate := msgStartStep_state messageId model s
  have hs0sent : (msgStartStep messageId model s).1.sentMessageStart = true := by
    rw [hstate]
  have hs0idx : (msgStartStep messageId model s).1.contentIndex = s.contentIndex := by
    rw [hstate]
  have hs0bump : canBump (msgStartStep messageId model s).1 = canBump s := by
    rw [hstate]
    rfl
  simp only [processChunk] at hr
  cases hch : chunk.choices.head? with
  | none =>
    simp only [hch] at hr
    rw [Prod.mk.injEq, Prod.mk.injEq] at hr
    obtain ⟨h1, h2, h3⟩ := hr
    subst h1
    subst h2
    subst h3
    refine ⟨hs0sent, haux4, ?_, ?_, ?_, ?_, ?_, ?_, fun _ => haux3, ?_⟩
    · intro hms
      exact ⟨_, by rw [haux5 hms]; rfl⟩
    · rw [hs0idx]
    · rw [haux1]
      exact List.Pairwise.nil
    · rw [haux1]
      intro j hj
      cases hj
    · intro _
      rw [haux1]
      intro j hj
      cases hj
    · intro B hB
      rw [haux2, List.nil_append]
      rw [hs0idx, hs0bump] at hB
      exact hB
    · intro h
      exact Bool.noConfusion h
  | some choice =>
    simp only [hch] at hr
    have hT := textStep_seg (msgStartStep messageId model s).1 choice.delta.content
    have hC := toolsStep_seg gen
      (textStep (msgStartStep messageId model s).1 choice.delta.content).1
      choice.delta.toolCalls
    obtain ⟨hseg1, hseg2, hseg3, hseg4, hseg5, hseg6, hseg7⟩ := SegOK_comp hT hC
    cases hfin : choice.finishReason with
    | none =>
      simp only [hfin] at hr
      rw [Prod.mk.injEq, Prod.mk.injEq] at hr
      obtain ⟨h1, h2, h3⟩ := hr
      subst h1
      subst h2
      subst h3
      refine ⟨?_, ?_, ?_, ?_, ?_, ?_, ?_, ?_, ?_, ?_⟩
      · rw [hseg1]
        exact hs0sent
      · rw [List.append_assoc, List.countP_append, haux4, hseg2]
        simp
      · intro hms
        exact ⟨_, by rw [List.append_assoc, haux5 hms]; rfl⟩
      · rw [← hs0idx]
        exact hseg4
      · rw [List.append_assoc, stopIdxs_append, haux1, List.nil_append]
        exact hseg5
      · rw [List.append_assoc, stopIdxs_append, haux1, List.nil_append]
        intro j hj
        rw [← hs0idx]
        exact (hseg6 j hj).1
      · intro _
        rw [List.append_assoc, stopIdxs_append, haux1, List.nil_append]
        intro j hj
        exact (hseg6 j hj).2
      · intro B hB
        rw [List.append_assoc, startIdxs_append, haux2, List.nil_append]
        have := hseg7 B hB
        rw [hs0idx, hs0bump] at this
        exact this
      · intro _
        rw [List.append_assoc, List.countP_append, haux3, hseg3]
      · intro h
        exact Bool.noConfusion h
    | some fr =>
      simp only [hfin] at hr
      rw [Prod.mk.injEq, Prod.mk.injEq] at hr
      obtain ⟨h1, h2, h3⟩ := hr
      subst h1
      subst h2
      subst h3
      obtain ⟨hf1, hf2, hf3⟩ := finishEvents_aux
        (toolsStep gen (textStep (msgStartStep messageId model s).1
          choice.delta.content).1 choice.delta.toolCalls).1 chunk fr
      refine ⟨?_, ?_, ?_, ?_, ?_, ?_, ?_, ?_, ?_, ?_⟩
      · rw [hseg1]
        exact hs0sent
      · rw [List.countP_append, List.append_assoc, List.countP_append,
          haux4, hseg2, hf3]
        simp
      · intro hms
        exact ⟨_, by rw [List.append_assoc, List.append_assoc, haux5 hms]; rfl⟩
      · rw [← hs0idx]
        exact hseg4
      · rw [stopIdxs_append, List.append_assoc, stopIdxs_append, haux1,
          List.nil_append, hf1]
        apply List.pairwise_append.mpr
        refine ⟨hseg5, List.pairwise_singleton _ _, ?_⟩
        intro a ha b hb
        have hb' : b = (toolsStep gen (textStep (msgStartStep messageId model s).1
            choice.delta.content).1 choice.delta.toolCalls).1.contentIndex := by
          simpa using hb
        rw [hb']
        exact (hseg6 a ha).2
      · rw [stopIdxs_append, List.append_assoc, stopIdxs_append, haux1,
          List.nil_append, hf1]
        intro j hj
        rcases List.mem_append.mp hj with hj | hj
        · rw [← hs0idx]
          exact (hseg6 j hj).1
        · have hj' : j = (toolsStep gen (textStep (msgStartStep messageId model s).1
              choice.delta.content).1 choice.delta.toolCalls).1.contentIndex := by
            simpa using hj
          rw [hj', ← hs0idx]
          exact hseg4
      · intro h
        exact Bool.noConfusion h
      · intro B hB
        have := hseg7 B hB
        rw [hs0idx, hs0bump] at this
        simp only [startIdxs_append, haux2, hf2, List.nil_append,
          List.append_nil, List.append_assoc] at this ⊢
        exact this
      · intro h
        exact Bool.noConfusion h
      · intro _
        obtain ⟨pre, hpre, hpcount⟩ := finishEvents_split
          (toolsStep gen (textStep (msgStartStep messageId model s).1
            choice.delta.content).1 choice.delta.toolCalls).1 chunk fr
        refine ⟨((msgStartStep messageId model s).2 ++
          (textStep (msgStartStep messageId model s).1 choice.delta.content).2 ++
          (toolsStep gen (textStep (msgStartStep messageId model s).1
            choice.delta.content).1 choice.delta.toolCalls).2) ++ pre, ?_, ?_⟩
        · rw [hpre]
          simp [List.append_assoc]
        · have h32 := hseg3
          rw [List.countP_append] at h32
          simp only [List.countP_append, haux3, hpcount]
          omega

/-- The global bookkeeping of the streaming task over a whole SSE payload
sequence: one `message_start` (first) iff a chunk is processed, strictly
increasing stop indices bounded below by the current content index,
contiguous start indices, and a single final `message_stop`. -/
theorem stream_openai_request_spec (gen : Nat → String)
    (messageId model : String) :
    ∀ (l : List StreamInput) (s : StreamState),
    (stream_openai_request gen messageId model s l).countP isMessageStartB =
      (if s.sentMessageStart = false ∧ firstSigIsChunk l = true then 1 else 0) ∧
    (s.sentMessageStart = false → firstSigIsChunk l = true →
      ∃ m, (stream_openai_request gen messageId model s l).head? =
        some (StreamEvent.messageStart m)) ∧
    (stopIdxs (stream_openai_request gen messageId model s l)).Pairwise (· < ·) ∧
    (∀ j ∈ stopIdxs (stream_openai_request gen messageId model s l),
      s.contentIndex ≤ j) ∧
    stepsOK s.contentIndex (canBump s)
      (startIdxs (stream_openai_request gen messageId model s l)) ∧
    (∃ l', stream_openai_request gen messageId model s l =
        l' ++ [StreamEvent.messageStop] ∧ l'.countP isMessageStopB = 0) := by
  intro l
  induction l with
  | nil =>
    intro s
    refine ⟨?_, ?_, ?_, ?_, ?_, ⟨[], rfl, rfl⟩⟩
    · simp [stream_openai_request, isMessageStartB, firstSigIsChunk]
    · intro _ hsig
      exact Bool.noConfusion hsig
    · simp [stream_openai_request, stopIdxs]
    · simp [stream_openai_request, stopIdxs]
    · simp [stream_openai_request, startIdxs, stepsOK]
  | cons i rest ih =>
    cases i with
    | doneMark =>
      intro s
      refine ⟨?_, ?_, ?_, ?_, ?_, ⟨[], rfl, rfl⟩⟩
      · simp [stream_openai_request, isMessageStartB, firstSigIsChunk]
      · intro _ hsig
        exact Bool.noConfusion hsig
      · simp [stream_openai_request, stopIdxs]
      · simp [stream_openai_request, stopIdxs]
      · simp [stream_openai_request, startIdxs, stepsOK]
    | unparseable =>
      intro s
      simpa [stream_openai_request, firstSigIsChunk] using ih s
    | parsed c =>
      intro s
      rcases hpc : processChunk gen messageId model s c with ⟨s2, evs2, stopped⟩
      obtain ⟨p1, p2, p3, p4, p5, p6, p7, p8, p9, p10⟩ :=
        processChunk_spec gen messageId model s c s2 evs2 stopped hpc
      have hout : stream_openai_request gen messageId model s (.parsed c :: rest) =
          if stopped then evs2
          else evs2 ++ stream_openai_request gen messageId model s2 rest := by
        simp only [stream_openai_request, hpc]
      cases stopped with
      | true =>
        rw [if_pos rfl] at hout
        refine ⟨?_, ?_, ?_, ?_, ?_, ?_⟩
        · rw [hout, p2]
          cases hs : s.sentMessageStart <;> simp [hs, firstSigIsChunk]
        · intro hms _
          rw [hout]
          exact p3 hms
        · rw [hout]
          exact p5
        · rw [hout]
          exact p6
        · rw [hout]
          have := p8 [] trivial
          rwa [List.append_nil] at this
        · rw [hout]
          exact p10 rfl
      | false =>
        rw [if_neg Bool.false_ne_true] at hout
        obtain ⟨q1, q2, q3, q4, q5, q6⟩ := ih s2
        refine ⟨?_, ?_, ?_, ?_, ?_, ?_⟩
        · rw [hout, List.countP_append, p2, q1]
          cases hs : s.sentMessageStart <;> simp [hs, firstSigIsChunk, p1]
        · intro hms _
          obtain ⟨m, hm⟩ := p3 hms
          rcases evs2 with _ | ⟨e, t⟩
          · exact absurd hm (by simp)
          · refine ⟨m, ?_⟩
            rw [hout]
            simpa using hm
        · rw [hout, stopIdxs_append]
          apply List.pairwise_append.mpr
          refine ⟨p5, q3, ?_⟩
          intro a ha b hb
          have hha := p7 rfl a ha
          have hhb := q4 b hb
          omega
        · rw [hout, stopIdxs_append]
          intro j hj
          rcases List.mem_append.mp hj with hj | hj
          · exact p6 j hj
          · have := q4 j hj
            omega
        · rw [hout, startIdxs_append]
          exact p8 _ q5
        · obtain ⟨l', hl', hc⟩ := q6
          refine ⟨evs2 ++ l', ?_, ?_⟩
          · rw [hout, hl', List.append_assoc]
          · rw [List.countP_append, p9 rfl, hc]

/-- C1 (amended): whenever the upstream SSE payload sequence contains at
least one successfully parsed chunk before any `[DONE]`, the client-visible
event sequence satisfies the stream-ordering property: exactly one
`message_start` preceding everything else, at most one
`content_block_stop(i)` per opened index, contiguous non-decreasing opened
indices starting at 0, every `message_delta` before `message_stop`, and a
single `message_stop` as the last event. -/
theorem stream_event_ordering (gen : Nat → String) (messageId model : String)
    (inputs : List StreamInput) (hchunk : firstSigIsChunk inputs = true) :
    clientStreamOK
      (stream_openai_request gen messageId model initialStreamState inputs) := by
  obtain ⟨h1, h2, h3, h4, h5, h6⟩ :=
    stream_openai_request_spec gen messageId model inputs initialStreamState
  refine ⟨?_, ?_, ?_, ?_, ?_, h6⟩
  · rw [h1]
    simp [initialStreamState, hchunk]
  · exact h2 rfl hchunk
  · intro i _
    rw [countP_stop_eq]
    exact countP_le_one_of_pairwise h3 i
  · exact h5
  · obtain ⟨l', hl', hc⟩ := h6
    intro i d u hi
    refine ⟨l'.length, ?_, ?_⟩
    · obtain ⟨hlt, _⟩ := List.getElem?_eq_some.mp hi
      rw [hl', List.length_append, List.length_singleton] at hlt
      by_contra hge
      push_neg at hge
      have hieq : i = l'.length := by omega
      rw [hieq, hl', List.getElem?_concat_length] at hi
      exact StreamEvent.noConfusion (Option.some.inj hi)
    · rw [hl']
      exact List.getElem?_concat_length l' _
  
/-- A concrete generator for the streaming counterexample and witness. -/
def c1Gen : Nat → String := fun _ => "u"

/-- C1 counterexample: when the upstream sends only `data: [DONE]` (no
parseable chunk), the task emits just `message_stop` — zero
`message_start` events — so the claim fails as stated for this sequence. -/
theorem stream_event_ordering_counterexample :
    ¬ clientStreamOK (stream_openai_request c1Gen "msg_1" "claude-3"
      initialStreamState [StreamInput.doneMark]) := by
  intro h
  have he : stream_openai_request c1Gen "msg_1" "claude-3"
      initialStreamState [StreamInput.doneMark] = [StreamEvent.messageStop] := rfl
  rw [he] at h
  exact absurd h.1 (by decide)

/-- The single-chunk upstream sequence used as the C1 witness. -/
def c1WitnessChunk : OpenAIStreamChunk :=
  ⟨none, [⟨0, ⟨none, some "Hi", none⟩, some "stop"⟩], none⟩

/-- Witness for the amended C1 at a concrete one-chunk stream. -/
theorem stream_event_ordering_witness :
    firstSigIsChunk [StreamInput.parsed c1WitnessChunk] = true ∧
      clientStreamOK (stream_openai_request c1Gen "msg_1" "claude-3"
        initialStreamState [StreamInput.parsed c1WitnessChunk]) :=
  ⟨rfl, stream_event_ordering c1Gen "msg_1" "claude-3"
    [StreamInput.parsed c1WitnessChunk] rfl⟩
